import Mathlib

/-!
Verification of the flecto redirect/page matching core.

The Go sources define a `RedirectTree` matcher (exact host+uri / uri indexes
backed by a radix tree, plus two regex tiers with literal-prefix bucketing),
a `PageTree` matcher (exact tiers only), placeholder substitution for regex
targets, and a literal-prefix extractor over the `regexp/syntax` parse tree.

Modelling conventions:
* Go strings are modelled as `List Char` (`Str`).
* The external `github.com/armon/go-radix` tree is modelled as an association
  list with exact `Get`, replace-or-append `Insert`, and `WalkPrefix`
  realised as a filter over stored keys (the go-radix walk visits every key
  the walked text is a prefix of; visit order only affects tie order among
  equal-length regex sources, which the code leaves unspecified).
* The Go standard library regex engine is kept abstract: a compiled regex is
  a value whose `FindStringSubmatch` field maps an input to `none` (Go `nil`)
  or `some` submatch list (entry 0 is the full match).  `regexp.Compile` and
  `syntax.Parse`-based prefix extraction enter as explicit function
  parameters `compile` and `extractPre` of `Insert`/`buildTree`.
* The `regexp/syntax` parse tree and the source's `extractLiteralPrefix`
  recursion over it are modelled concretely further below (`SynRegexp`),
  together with a language semantics for the modelled constructs.
-/

abbrev Str := List Char

/-- Exact-key lookup in the radix-tree model: first entry with the key. -/
def radixGet {α : Type} (t : List (Str × α)) (k : Str) : Option α :=
  match t with
  | [] => none
  | (k', v) :: rest => if k' = k then some v else radixGet rest k

/-- Radix-tree `Insert`: replace the value at an existing key, else append. -/
def radixInsert {α : Type} (t : List (Str × α)) (k : Str) (v : α) :
    List (Str × α) :=
  match t with
  | [] => [(k, v)]
  | (k', v') :: rest =>
    if k' = k then (k, v) :: rest else (k', v') :: radixInsert rest k v

/-- Go `type RedirectType string`. -/
abbrev RedirectType := Str

def RedirectTypeBasic : RedirectType := "BASIC".toList
def RedirectTypeBasicHost : RedirectType := "BASIC_HOST".toList
def RedirectTypeRegex : RedirectType := "REGEX".toList
def RedirectTypeRegexHost : RedirectType := "REGEX_HOST".toList

/-- Go `type RedirectStatus string`. -/
abbrev RedirectStatus := Str

def RedirectStatusMovedPermanent : RedirectStatus := "MOVED_PERMANENT".toList
def RedirectStatusFound : RedirectStatus := "FOUND".toList
def RedirectStatusTemporary : RedirectStatus := "TEMPORARY_REDIRECT".toList
def RedirectStatusPermanent : RedirectStatus := "PERMANENT_REDIRECT".toList

/-- The `Redirect` record (`type` stands for the Go field `Type`). -/
structure Redirect where
  type : RedirectType
  Source : Str
  Target : Str
  Status : RedirectStatus
deriving DecidableEq, Repr

/-- `Redirect.HTTPCode`: the Go `switch` on `Status`. -/
def Redirect.HTTPCode (r : Redirect) : Nat :=
  if r.Status = RedirectStatusMovedPermanent then 301
  else if r.Status = RedirectStatusFound then 302
  else if r.Status = RedirectStatusTemporary then 307
  else if r.Status = RedirectStatusPermanent then 308
  else 302

/-- Abstract compiled regex (`regexp.Regexp`): its `FindStringSubmatch`
behaviour only.  `none` models the `nil` no-match slice. -/
structure Regexp where
  FindStringSubmatch : Str → Option (List Str)

/-- `compiledRedirect`: a redirect plus its compiled regex (absent for the
basic types, where the Go field is a `nil` pointer). -/
structure compiledRedirect where
  Redirect : Redirect
  regex : Option Regexp

/-- `regexBucket`: the redirects sharing one literal prefix. -/
structure regexBucket where
  redirects : List compiledRedirect

/-- The `RedirectTree` matcher state. -/
structure RedirectTree where
  basicHost : List (Str × compiledRedirect)
  basic : List (Str × compiledRedirect)
  regexHost : List (Str × regexBucket)
  regex : List (Str × regexBucket)
  regexHostRoot : List compiledRedirect
  regexRoot : List compiledRedirect

/-- `NewRedirectTreeMatcher`: all indexes empty. -/
def NewRedirectTreeMatcher : RedirectTree :=
  { basicHost := [], basic := [], regexHost := [], regex := []
    regexHostRoot := [], regexRoot := [] }

/-- Go `minInt`. -/
def minInt (a b : Nat) : Nat :=
  if a < b then a else b

/-- The scan loop of `strings.ReplaceAll`: emit characters until the
pattern `o :: os` starts, then emit the replacement and resume after the
occurrence.  The skip counter realises the jump over the occurrence's
remaining characters one step at a time, keeping the recursion structural
on the scanned string. -/
def replaceAllGo (o : Char) (os new : Str) : Nat → Str → Str
  | _, [] => []
  | k + 1, _ :: rest => replaceAllGo o os new k rest
  | 0, c :: rest =>
    if (o :: os).isPrefixOf (c :: rest) then
      new ++ replaceAllGo o os new os.length rest
    else
      c :: replaceAllGo o os new 0 rest

/-- `strings.ReplaceAll(s, old, new)` for a non-empty `old` (every call in
the source passes a two-character placeholder): replace non-overlapping
occurrences left to right.  With `old = []` the model returns `s`
unchanged; the source never calls it that way. -/
def replaceAll (s old new : Str) : Str :=
  match old with
  | [] => s
  | o :: os => replaceAllGo o os new 0 s

/-- The token `"$" + string(rune('0'+i))` built in `resolveTarget`. -/
def placeholderFor (i : Nat) : Str :=
  ['$', Char.ofNat ('0'.toNat + i)]

/-- The body of `resolveTarget`'s loop `for i := len(matches)-1; i >= 1; i--`,
expressed by recursion on the loop counter. -/
def resolveTargetLoop (ms : List Str) : Nat → Str → Str
  | 0, result => result
  | i + 1, result =>
    resolveTargetLoop ms i
      (replaceAll result (placeholderFor (i + 1)) (ms.getD (i + 1) []))

/-- `resolveTarget`: substitute `$i` with the i-th submatch, from the
highest group index down to `$1`. -/
def resolveTarget (target : Str) (ms : List Str) : Str :=
  resolveTargetLoop ms (ms.length - 1) target

/-- `sortBySourceLength`: sort by descending length of the raw `Source`
text.  Go uses the unstable `sort.Slice`; ties are unspecified there, and
the model fixes the stable insertion-sort order. -/
def sortBySourceLength (candidates : List compiledRedirect) :
    List compiledRedirect :=
  candidates.insertionSort
    (fun a b => b.Redirect.Source.length ≤ a.Redirect.Source.length)

/-- The candidate set gathered by `matchRegex`'s `WalkPrefix` call: walk the
subtree keyed by the input's first character, keep each visited key that is
itself a prefix of the input, and flatten the kept buckets. -/
def walkCandidates (tree : List (Str × regexBucket)) (input : Str) :
    List compiledRedirect :=
  (tree.filter (fun kb =>
      (input.take (minInt input.length 1)).isPrefixOf kb.1 &&
      kb.1.isPrefixOf input)).flatMap
    (fun kb => kb.2.redirects)

/-- Evaluation of `cr.regex.FindStringSubmatch` in the regex tiers (the Go
field is a typed pointer; `none` stands for the basic types' `nil`). -/
def crFind (cr : compiledRedirect) (input : Str) : Option (List Str) :=
  match cr.regex with
  | some re => re.FindStringSubmatch input
  | none => none

/-- `matchRegex`'s final loop: first sorted candidate whose regex matches
wins; its target is substituted from the submatches. -/
def firstSubmatch (candidates : List compiledRedirect) (input : Str) :
    Option Redirect × Str :=
  match candidates with
  | [] => (none, [])
  | cr :: rest =>
    match crFind cr input with
    | some m => (some cr.Redirect, resolveTarget cr.Redirect.Target m)
    | none => firstSubmatch rest input

/-- `RedirectTree.matchRegex` over one tier. -/
def matchRegex (tree : List (Str × regexBucket))
    (rootBucket : List compiledRedirect) (input : Str) :
    Option Redirect × Str :=
  firstSubmatch (sortBySourceLength (walkCandidates tree input ++ rootBucket))
    input

/-- `RedirectTree.Match`: the four lookup tiers and the no-match result. -/
def RedirectTree.Match (rt : RedirectTree) (host uri : Str) :
    Option Redirect × Str :=
  let hostURI := host ++ uri
  match radixGet rt.basicHost hostURI with
  | some cr => (some cr.Redirect, cr.Redirect.Target)
  | none =>
    match radixGet rt.basic uri with
    | some cr => (some cr.Redirect, cr.Redirect.Target)
    | none =>
      match matchRegex rt.regexHost rt.regexHostRoot hostURI with
      | (some r, target) => (some r, target)
      | (none, _) =>
        match matchRegex rt.regex rt.regexRoot uri with
        | (some r, target) => (some r, target)
        | (none, _) => (none, [])

/-- The bucket update in `Insert`'s regex branch: append to the bucket under
the prefix key if present, else insert a fresh one-element bucket. -/
def bucketInsert (tree : List (Str × regexBucket)) (pre : Str)
    (cr : compiledRedirect) : List (Str × regexBucket) :=
  match radixGet tree pre with
  | some bucket => radixInsert tree pre ⟨bucket.redirects ++ [cr]⟩
  | none => radixInsert tree pre ⟨[cr]⟩

/-- `RedirectTree.Insert`.  `compile` models `regexp.Compile` (`Except`
mirrors its error return); `extractPre` models `extractRegexPrefix`, whose
`syntax.Parse` step lives in the Go standard library.  The pair returned is
the updated state plus the Go error value (`none` = `nil`); the error path
returns before any index is touched, so the state component there is the
input state itself. -/
def RedirectTree.Insert (compile : Str → Except Str Regexp)
    (extractPre : Str → Str) (rt : RedirectTree) (r : Redirect) :
    RedirectTree × Option Str :=
  if r.type = RedirectTypeBasicHost then
    ({ rt with basicHost := radixInsert rt.basicHost r.Source ⟨r, none⟩ },
      none)
  else if r.type = RedirectTypeBasic then
    ({ rt with basic := radixInsert rt.basic r.Source ⟨r, none⟩ }, none)
  else if r.type = RedirectTypeRegexHost ∨ r.type = RedirectTypeRegex then
    match compile r.Source with
    | .error e => (rt, some e)
    | .ok re =>
      let cr : compiledRedirect := ⟨r, some re⟩
      let pre := extractPre r.Source
      if r.type = RedirectTypeRegexHost then
        if pre = [] then
          ({ rt with regexHostRoot := rt.regexHostRoot ++ [cr] }, none)
        else
          ({ rt with regexHost := bucketInsert rt.regexHost pre cr }, none)
      else
        if pre = [] then
          ({ rt with regexRoot := rt.regexRoot ++ [cr] }, none)
        else
          ({ rt with regex := bucketInsert rt.regex pre cr }, none)
  else (rt, none)

/-- Building a matcher from a rule list: insert each rule in order into a
fresh matcher; a failed insert leaves the state unchanged (the caller skips
the offending rule). -/
def buildTree (compile : Str → Except Str Regexp) (extractPre : Str → Str)
    (rs : List Redirect) : RedirectTree :=
  rs.foldl (fun rt r => (RedirectTree.Insert compile extractPre rt r).1)
    NewRedirectTreeMatcher

/-- Go `type PageType string`. -/
abbrev PageType := Str

def PageTypeBasic : PageType := "BASIC".toList
def PageTypeBasicHost : PageType := "BASIC_HOST".toList

/-- The `Page` record (`type` stands for the Go field `Type`). -/
structure Page where
  type : PageType
  Path : Str
  Content : Str
  ContentType : Str
deriving DecidableEq, Repr

/-- The `PageTree` matcher state: the two exact indexes. -/
structure PageTree where
  basicHost : List (Str × Page)
  basic : List (Str × Page)

/-- `NewPageTreeMatcher`. -/
def NewPageTreeMatcher : PageTree :=
  { basicHost := [], basic := [] }

/-- `PageTree.Insert`: the `switch` stores BASIC_HOST / BASIC pages only;
any other type falls through without touching the state. -/
def PageTree.Insert (pt : PageTree) (p : Page) : PageTree :=
  if p.type = PageTypeBasicHost then
    { pt with basicHost := radixInsert pt.basicHost p.Path p }
  else if p.type = PageTypeBasic then
    { pt with basic := radixInsert pt.basic p.Path p }
  else pt

/-- `PageTree.Match`: host+uri exact tier, then uri exact tier, else `nil`. -/
def PageTree.Match (pt : PageTree) (host uri : Str) : Option Page :=
  let hostURI := host ++ uri
  match radixGet pt.basicHost hostURI with
  | some p => some p
  | none =>
    match radixGet pt.basic uri with
    | some p => some p
    | none => none

/-- The `regexp/syntax` parse tree (`syntax.Regexp`), restricted to the
operators the prefix extractor distinguishes plus representatives of the
"any other construct" default branch.  A capture node always carries its one
sub-expression, as produced by the Go parser. -/
inductive SynRegexp where
  | opLiteral (runes : Str)
  | opConcat (subs : List SynRegexp)
  | opCapture (sub : SynRegexp)
  | opStar (sub : SynRegexp)
  | opQuest (sub : SynRegexp)
  | opAlternate (subs : List SynRegexp)
  | opCharClass (chars : List Char)
  | opAnyChar

mutual

/-- `extractLiteralPrefix`: literal nodes contribute their runes; a
concatenation walks its children left to right; a bare capture descends into
its sub-expression; everything else yields no prefix. -/
def extractLiteralPrefix : SynRegexp → Str
  | .opLiteral runes => runes
  | .opConcat subs => concatWalk subs
  | .opCapture sub => extractLiteralPrefix sub
  | .opStar _ => []
  | .opQuest _ => []
  | .opAlternate _ => []
  | .opCharClass _ => []
  | .opAnyChar => []

/-- The accumulation loop of `extractLiteralPrefix`'s `OpConcat` case: a
literal child appends its runes and continues; a capture child appends the
prefix extracted one level down and continues unless that prefix is empty;
any other child breaks, keeping what was accumulated so far. -/
def concatWalk : List SynRegexp → Str
  | [] => []
  | sub :: rest =>
    match sub with
    | .opLiteral runes => runes ++ concatWalk rest
    | .opCapture inner =>
      let p := extractLiteralPrefix inner
      if p = [] then [] else p ++ concatWalk rest
    | _ => []

end

/-- `strings.TrimPrefix(pattern, "^")`. -/
def trimCaret (pattern : Str) : Str :=
  match pattern with
  | '^' :: rest => rest
  | other => other

/-- `extractRegexPrefix`, with the standard library's `syntax.Parse` as the
explicit parameter `parse` (`none` models a parse error, which degrades to
the empty prefix). -/
def extractRegexPrefix (parse : Str → Option SynRegexp) (pattern : Str) :
    Str :=
  match parse (trimCaret pattern) with
  | none => []
  | some re => extractLiteralPrefix re

/-- Language semantics of the modelled `syntax.Regexp` constructs: the
strings the whole pattern can match. -/
inductive SynMatches : SynRegexp → Str → Prop where
  | literal (runes : Str) : SynMatches (.opLiteral runes) runes
  | concatNil : SynMatches (.opConcat []) []
  | concatCons (r : SynRegexp) (rs : List SynRegexp) (s1 s2 : Str) :
      SynMatches r s1 → SynMatches (.opConcat rs) s2 →
      SynMatches (.opConcat (r :: rs)) (s1 ++ s2)
  | capture (r : SynRegexp) (s : Str) :
      SynMatches r s → SynMatches (.opCapture r) s
  | questNone (r : SynRegexp) : SynMatches (.opQuest r) []
  | questSome (r : SynRegexp) (s : Str) :
      SynMatches r s → SynMatches (.opQuest r) s
  | starNil (r : SynRegexp) : SynMatches (.opStar r) []
  | starCons (r : SynRegexp) (s1 s2 : Str) :
      SynMatches r s1 → SynMatches (.opStar r) s2 →
      SynMatches (.opStar r) (s1 ++ s2)
  | alternate (r : SynRegexp) (rs : List SynRegexp) (s : Str) :
      r ∈ rs → SynMatches r s → SynMatches (.opAlternate rs) s
  | charClass (c : Char) (cs : List Char) :
      c ∈ cs → SynMatches (.opCharClass cs) [c]
  | anyChar (c : Char) : SynMatches .opAnyChar [c]

/-- Modelled from the spec: simultaneous placeholder substitution that
"replaces tokens from highest index down to `$1`", "each token ... replaced
exactly once using its own group", with a token "referencing a group number
beyond what the pattern captured ... left as a literal, unreplaced token".
Scanning the template once, a token `$d` with `1 ≤ d ≤ k` and `d` inside the
group list is replaced by group `d`; everything else is copied verbatim. -/
def specSubstK (ms : List Str) (k : Nat) : Str → Str
  | [] => []
  | ['$'] => ['$']
  | '$' :: d :: rest' =>
    if 1 ≤ d.toNat - '0'.toNat ∧ d.toNat - '0'.toNat ≤ 9 ∧
        d.toNat - '0'.toNat ≤ k ∧ d.toNat - '0'.toNat < ms.length then
      ms.getD (d.toNat - '0'.toNat) [] ++ specSubstK ms k rest'
    else
      '$' :: specSubstK ms k (d :: rest')
  | c :: rest => c :: specSubstK ms k rest

/-- Modelled from the spec: one-pass substitution of the tokens `$1`…`$9`,
each replaced by its own capture group, out-of-range tokens left literal. -/
def specSubst (ms : List Str) (template : Str) : Str :=
  specSubstK ms 9 template

/-- The `basicHost`/`basic` index that repeated `Insert`s build, as a fold
over the rules routed to it. -/
def basicFoldFrom (t0 : List (Str × compiledRedirect)) (l : List Redirect) :
    List (Str × compiledRedirect) :=
  l.foldl (fun t r => radixInsert t r.Source ⟨r, none⟩) t0

/-- The (literal prefix, compiled redirect) pairs that `Insert` produces, in
rule order, for one regex tier: rules of the tier's type whose source
compiles. -/
def tierCompiled (compile : Str → Except Str Regexp) (extractPre : Str → Str)
    (ty : RedirectType) (rs : List Redirect) :
    List (Str × compiledRedirect) :=
  rs.filterMap (fun r =>
    if r.type = ty then
      match compile r.Source with
      | .ok re => some (extractPre r.Source, ⟨r, some re⟩)
      | .error _ => none
    else none)

/-- The root bucket a tier's pair list yields: the empty-prefix entries. -/
def rootOf (l : List (Str × compiledRedirect)) : List compiledRedirect :=
  (l.filter (fun pc => pc.1.isEmpty)).map (fun pc => pc.2)

/-- The bucket index a tier's pair list yields, folded from a given tree. -/
def bucketsFoldFrom (t0 : List (Str × regexBucket))
    (l : List (Str × compiledRedirect)) : List (Str × regexBucket) :=
  l.foldl (fun t pc => bucketInsert t pc.1 pc.2) t0

/-- The bucket index a tier's pair list yields: non-empty prefixes only. -/
def bucketsOf (l : List (Str × compiledRedirect)) :
    List (Str × regexBucket) :=
  bucketsFoldFrom [] (l.filter (fun pc => !pc.1.isEmpty))

/-- A toy regex engine for concrete instantiations: the compiled pattern
matches any input it is a prefix of, capturing the whole input. -/
def toyRe (pat : Str) : Regexp :=
  ⟨fun input => if pat.isPrefixOf input then some [input] else none⟩

/-- A toy `regexp.Compile` that always succeeds with `toyRe`. -/
def toyCompile (pat : Str) : Except Str Regexp :=
  .ok (toyRe pat)

/-- A toy `regexp.Compile` that always fails. -/
def failCompile (_ : Str) : Except Str Regexp :=
  .error "compile error".toList

/-- A toy prefix extractor that buckets nothing (everything goes to the
root bucket). -/
def toyExtract (_ : Str) : Str :=
  []

/-- The parse tree of the pattern `(ab?)c` as `regexp/syntax` produces it:
a concatenation of a capture group around `ab?` and the literal `c`. -/
def patternABQC : SynRegexp :=
  .opConcat
    [.opCapture (.opConcat [.opLiteral ['a'], .opQuest (.opLiteral ['b'])]),
      .opLiteral ['c']]

/-- No two adjacent dollar characters: the template well-formedness
condition under which sequential and one-pass substitution coincide. -/
def noDollarDollar : Str → Bool
  | [] => true
  | [_] => true
  | c :: d :: rest => !(c == '$' && d == '$') && noDollarDollar (d :: rest)

/-- Concrete rules and states used to instantiate the claim theorems. -/
def wBasicRule : Redirect := ⟨RedirectTypeBasic, "/a".toList, "/b".toList, []⟩

def wTree : RedirectTree :=
  ⟨[], [("/a".toList, ⟨wBasicRule, none⟩)], [], [], [], []⟩

def wRegexA : Redirect := ⟨RedirectTypeRegex, "/ab".toList, "/t1".toList, []⟩

def wRegexB : Redirect := ⟨RedirectTypeRegex, "/a".toList, "/t2".toList, []⟩

def wCrA : compiledRedirect := ⟨wRegexA, some (toyRe wRegexA.Source)⟩

def wCrB : compiledRedirect := ⟨wRegexB, some (toyRe wRegexB.Source)⟩

def dupA : Redirect := ⟨RedirectTypeBasic, "/a".toList, "/x".toList, []⟩

def dupB : Redirect := ⟨RedirectTypeBasic, "/a".toList, "/y".toList, []⟩

theorem radixGet_radixInsert {α : Type} (t : List (Str × α)) (k k' : Str)
    (v : α) :
    radixGet (radixInsert t k v) k' =
      if k = k' then some v else radixGet t k' := by
  induction t with
  | nil => simp [radixInsert, radixGet]
  | cons kv rest ih =>
    obtain ⟨k0, v0⟩ := kv
    by_cases h1 : k0 = k
    · subst h1
      by_cases h2 : k0 = k'
      · simp [radixInsert, radixGet, h2]
      · simp [radixInsert, radixGet, h2]
    · by_cases h2 : k0 = k'
      · subst h2
        have hkk : k ≠ k0 := fun h => h1 h.symm
        simp [radixInsert, radixGet, h1, hkk]
      · simp [radixInsert, radixGet, h1, h2, ih]

/-- Claim C8: `Redirect.HTTPCode` maps MOVED_PERMANENT to 301, FOUND to
302, TEMPORARY_REDIRECT to 307, PERMANENT_REDIRECT to 308, and every other
status value, the empty one included, to 302. -/
theorem claim_C8 (r : Redirect) :
    (r.Status = RedirectStatusMovedPermanent → r.HTTPCode = 301) ∧
    (r.Status = RedirectStatusFound → r.HTTPCode = 302) ∧
    (r.Status = RedirectStatusTemporary → r.HTTPCode = 307) ∧
    (r.Status = RedirectStatusPermanent → r.HTTPCode = 308) ∧
    (r.Status ≠ RedirectStatusMovedPermanent →
      r.Status ≠ RedirectStatusFound →
        r.Status ≠ RedirectStatusTemporary →
          r.Status ≠ RedirectStatusPermanent → r.HTTPCode = 302) := by
  unfold Redirect.HTTPCode
  refine ⟨fun h => by rw [h]; decide, fun h => by rw [h]; decide,
    fun h => by rw [h]; decide, fun h => by rw [h]; decide,
    fun h1 h2 h3 h4 => by rw [if_neg h1, if_neg h2, if_neg h3, if_neg h4]⟩

theorem claim_C8_witness :
    (Redirect.HTTPCode ⟨[], [], [], RedirectStatusMovedPermanent⟩ = 301) ∧
    (Redirect.HTTPCode ⟨[], [], [], RedirectStatusTemporary⟩ = 307) ∧
    (Redirect.HTTPCode ⟨[], [], [], []⟩ = 302) :=
  ⟨(claim_C8 ⟨[], [], [], RedirectStatusMovedPermanent⟩).1 rfl,
    (claim_C8 ⟨[], [], [], RedirectStatusTemporary⟩).2.2.1 rfl,
    (claim_C8 ⟨[], [], [], []⟩).2.2.2.2 (by decide) (by decide) (by decide)
      (by decide)⟩

/-- Claim C9: `PageTree.Match` returns the BASIC_HOST entry under
`host ++ uri` if present, else the BASIC entry under `uri` if present, else
the no-match sentinel; `PageTree.Insert` stores a page only when its type
is BASIC_HOST or BASIC. -/
theorem claim_C9 (pt : PageTree) (host uri : Str) :
    (∀ p, radixGet pt.basicHost (host ++ uri) = some p →
      pt.Match host uri = some p) ∧
    (radixGet pt.basicHost (host ++ uri) = none →
      ∀ p, radixGet pt.basic uri = some p → pt.Match host uri = some p) ∧
    (radixGet pt.basicHost (host ++ uri) = none →
      radixGet pt.basic uri = none → pt.Match host uri = none) ∧
    (∀ p : Page, p.type ≠ PageTypeBasicHost → p.type ≠ PageTypeBasic →
      pt.Insert p = pt) ∧
    (∀ p : Page, p.type = PageTypeBasicHost →
      pt.Insert p = { pt with basicHost := radixInsert pt.basicHost p.Path p }) ∧
    (∀ p : Page, p.type = PageTypeBasic →
      pt.Insert p = { pt with basic := radixInsert pt.basic p.Path p }) := by
  have hne : PageTypeBasic ≠ PageTypeBasicHost := by decide
  refine ⟨?_, ?_, ?_, ?_, ?_, ?_⟩
  · intro p h; simp [PageTree.Match, h]
  · intro h p h2; simp [PageTree.Match, h, h2]
  · intro h h2; simp [PageTree.Match, h, h2]
  · intro p h1 h2; simp [PageTree.Insert, h1, h2]
  · intro p h; simp [PageTree.Insert, h]
  · intro p h; simp [PageTree.Insert, h, hne]

theorem claim_C9_witness :
    (PageTree.Match ⟨[(("h/a".toList : Str), ⟨PageTypeBasicHost, "h/a".toList, "c1".toList, []⟩)], []⟩
      "h".toList "/a".toList =
        some ⟨PageTypeBasicHost, "h/a".toList, "c1".toList, []⟩) ∧
    (PageTree.Match ⟨[], []⟩ "h".toList "/a".toList = none) ∧
    (PageTree.Insert ⟨[], []⟩ ⟨"OTHER".toList, "/p".toList, [], []⟩ = ⟨[], []⟩) :=
  ⟨(claim_C9 _ _ _).1 _ (by decide),
    (claim_C9 ⟨[], []⟩ "h".toList "/a".toList).2.2.1 (by decide) (by decide),
    (claim_C9 ⟨[], []⟩ [] []).2.2.2.1 _ (by decide) (by decide)⟩

/-- Claim C6: `RedirectTree.Insert` reports an error exactly when the rule
is of a regex type and its source fails to compile; basic inserts never
fail; and an erroring insert leaves the matcher state unchanged. -/
theorem claim_C6 (compile : Str → Except Str Regexp) (extractPre : Str → Str)
    (rt : RedirectTree) (r : Redirect) :
    (((RedirectTree.Insert compile extractPre rt r).2 ≠ none) ↔
      ((r.type = RedirectTypeRegexHost ∨ r.type = RedirectTypeRegex) ∧
        ∃ e, compile r.Source = .error e)) ∧
    ((RedirectTree.Insert compile extractPre rt r).2 ≠ none →
      (RedirectTree.Insert compile extractPre rt r).1 = rt) ∧
    ((r.type = RedirectTypeBasicHost ∨ r.type = RedirectTypeBasic) →
      (RedirectTree.Insert compile extractPre rt r).2 = none) := by
  have neBHB : RedirectTypeBasicHost ≠ RedirectTypeBasic := by decide
  have neBHRH : RedirectTypeBasicHost ≠ RedirectTypeRegexHost := by decide
  have neBHR : RedirectTypeBasicHost ≠ RedirectTypeRegex := by decide
  have neBBH : RedirectTypeBasic ≠ RedirectTypeBasicHost := by decide
  have neBRH : RedirectTypeBasic ≠ RedirectTypeRegexHost := by decide
  have neBR : RedirectTypeBasic ≠ RedirectTypeRegex := by decide
  have neRHBH : RedirectTypeRegexHost ≠ RedirectTypeBasicHost := by decide
  have neRHB : RedirectTypeRegexHost ≠ RedirectTypeBasic := by decide
  have neRBH : RedirectTypeRegex ≠ RedirectTypeBasicHost := by decide
  have neRB : RedirectTypeRegex ≠ RedirectTypeBasic := by decide
  have neRRH : RedirectTypeRegex ≠ RedirectTypeRegexHost := by decide
  unfold RedirectTree.Insert
  by_cases h1 : r.type = RedirectTypeBasicHost
  · simp [h1, neBHB, neBHRH, neBHR]
  · by_cases h2 : r.type = RedirectTypeBasic
    · simp [h1, h2, neBBH, neBRH, neBR]
    · by_cases h3 : r.type = RedirectTypeRegexHost ∨ r.type = RedirectTypeRegex
      · cases hc : compile r.Source with
        | error e =>
          rcases h3 with he | he <;>
            simp [he, hc, neRHBH, neRHB, neRBH, neRB]
        | ok re =>
          rcases h3 with he | he
          · by_cases h5 : extractPre r.Source = [] <;>
              simp [he, hc, h5, neRHBH, neRHB]
          · by_cases h5 : extractPre r.Source = [] <;>
              simp [he, hc, h5, neRBH, neRB, neRRH]
      · simp [h1, h2, h3]

theorem claim_C6_witness :
    ((RedirectTree.Insert failCompile toyExtract NewRedirectTreeMatcher
        ⟨RedirectTypeRegex, "(".toList, [], []⟩).2 ≠ none) ∧
    ((RedirectTree.Insert failCompile toyExtract NewRedirectTreeMatcher
        ⟨RedirectTypeRegex, "(".toList, [], []⟩).1 = NewRedirectTreeMatcher) ∧
    ((RedirectTree.Insert failCompile toyExtract NewRedirectTreeMatcher
        ⟨RedirectTypeBasic, "/a".toList, "/b".toList, []⟩).2 = none) :=
  ⟨(claim_C6 failCompile toyExtract NewRedirectTreeMatcher
        ⟨RedirectTypeRegex, "(".toList, [], []⟩).1.mpr
      ⟨Or.inr rfl, "compile error".toList, rfl⟩,
    (claim_C6 failCompile toyExtract NewRedirectTreeMatcher
        ⟨RedirectTypeRegex, "(".toList, [], []⟩).2.1
      (by decide),
    (claim_C6 failCompile toyExtract NewRedirectTreeMatcher
        ⟨RedirectTypeBasic, "/a".toList, "/b".toList, []⟩).2.2
      (Or.inr rfl)⟩

/-- Claim C1: `RedirectTree.Match` tries the BASIC_HOST exact index under
`host ++ uri`, then the BASIC exact index under `uri`, then the host-scoped
regex tier over `host ++ uri`, then the path-only regex tier over `uri`,
each only if the previous tier missed, and returns the no-match sentinel
`(none, "")` when every tier misses; it never returns an error. -/
theorem claim_C1 (rt : RedirectTree) (host uri : Str) :
    (∀ cr, radixGet rt.basicHost (host ++ uri) = some cr →
      rt.Match host uri = (some cr.Redirect, cr.Redirect.Target)) ∧
    (radixGet rt.basicHost (host ++ uri) = none →
      ∀ cr, radixGet rt.basic uri = some cr →
        rt.Match host uri = (some cr.Redirect, cr.Redirect.Target)) ∧
    (radixGet rt.basicHost (host ++ uri) = none →
      radixGet rt.basic uri = none →
        ∀ r t, matchRegex rt.regexHost rt.regexHostRoot (host ++ uri) =
            (some r, t) →
          rt.Match host uri = (some r, t)) ∧
    (radixGet rt.basicHost (host ++ uri) = none →
      radixGet rt.basic uri = none →
        (matchRegex rt.regexHost rt.regexHostRoot (host ++ uri)).1 = none →
          ∀ r t, matchRegex rt.regex rt.regexRoot uri = (some r, t) →
            rt.Match host uri = (some r, t)) ∧
    (radixGet rt.basicHost (host ++ uri) = none →
      radixGet rt.basic uri = none →
        (matchRegex rt.regexHost rt.regexHostRoot (host ++ uri)).1 = none →
          (matchRegex rt.regex rt.regexRoot uri).1 = none →
            rt.Match host uri = (none, [])) := by
  refine ⟨?_, ?_, ?_, ?_, ?_⟩
  · intro cr h
    simp [RedirectTree.Match, h]
  · intro h cr h2
    simp [RedirectTree.Match, h, h2]
  · intro h h2 r t h3
    simp [RedirectTree.Match, h, h2, h3]
  · intro h h2 h3 r t h4
    rcases hm : matchRegex rt.regexHost rt.regexHostRoot (host ++ uri)
      with ⟨fst, snd⟩
    rw [hm] at h3
    simp only at h3
    subst h3
    simp [RedirectTree.Match, h, h2, hm, h4]
  · intro h h2 h3 h4
    rcases hm : matchRegex rt.regexHost rt.regexHostRoot (host ++ uri)
      with ⟨fst, snd⟩
    rw [hm] at h3
    simp only at h3
    subst h3
    rcases hm2 : matchRegex rt.regex rt.regexRoot uri with ⟨fst2, snd2⟩
    rw [hm2] at h4
    simp only at h4
    subst h4
    simp [RedirectTree.Match, h, h2, hm, hm2]

theorem claim_C1_witness :
    (wTree.Match "h".toList "/a".toList = (some wBasicRule, "/b".toList)) ∧
    (NewRedirectTreeMatcher.Match "h".toList "/a".toList = (none, [])) :=
  ⟨(claim_C1 wTree "h".toList "/a".toList).2.1 rfl ⟨wBasicRule, none⟩ rfl,
    (claim_C1 NewRedirectTreeMatcher "h".toList "/a".toList).2.2.2.2
      rfl rfl rfl rfl⟩

theorem Insert_basicHost_eq (c : Str → Except Str Regexp) (e : Str → Str)
    (rt : RedirectTree) (r : Redirect) (ht : r.type = RedirectTypeBasicHost) :
    RedirectTree.Insert c e rt r =
      ({ rt with basicHost := radixInsert rt.basicHost r.Source ⟨r, none⟩ },
        none) := by
  unfold RedirectTree.Insert
  rw [if_pos ht]

theorem Insert_basic_eq (c : Str → Except Str Regexp) (e : Str → Str)
    (rt : RedirectTree) (r : Redirect) (ht : r.type = RedirectTypeBasic) :
    RedirectTree.Insert c e rt r =
      ({ rt with basic := radixInsert rt.basic r.Source ⟨r, none⟩ }, none) := by
  have h1 : r.type ≠ RedirectTypeBasicHost := by rw [ht]; decide
  unfold RedirectTree.Insert
  rw [if_neg h1, if_pos ht]

theorem Insert_regex_eq (c : Str → Except Str Regexp) (e : Str → Str)
    (rt : RedirectTree) (r : Redirect) (ht : r.type = RedirectTypeRegex) :
    RedirectTree.Insert c e rt r =
      match c r.Source with
      | .error err => (rt, some err)
      | .ok re =>
        if e r.Source = [] then
          ({ rt with regexRoot := rt.regexRoot ++ [⟨r, some re⟩] }, none)
        else
          ({ rt with
              regex := bucketInsert rt.regex (e r.Source) ⟨r, some re⟩ },
            none) := by
  have h1 : r.type ≠ RedirectTypeBasicHost := by rw [ht]; decide
  have h2 : r.type ≠ RedirectTypeBasic := by rw [ht]; decide
  have h4 : r.type ≠ RedirectTypeRegexHost := by rw [ht]; decide
  unfold RedirectTree.Insert
  rw [if_neg h1, if_neg h2, if_pos (Or.inr ht)]
  cases c r.Source with
  | error err => rfl
  | ok re => simp only [if_neg h4]

theorem Insert_regexHost_eq (c : Str → Except Str Regexp) (e : Str → Str)
    (rt : RedirectTree) (r : Redirect)
    (ht : r.type = RedirectTypeRegexHost) :
    RedirectTree.Insert c e rt r =
      match c r.Source with
      | .error err => (rt, some err)
      | .ok re =>
        if e r.Source = [] then
          ({ rt with regexHostRoot := rt.regexHostRoot ++ [⟨r, some re⟩] },
            none)
        else
          ({ rt with
              regexHost :=
                bucketInsert rt.regexHost (e r.Source) ⟨r, some re⟩ },
            none) := by
  have h1 : r.type ≠ RedirectTypeBasicHost := by rw [ht]; decide
  have h2 : r.type ≠ RedirectTypeBasic := by rw [ht]; decide
  unfold RedirectTree.Insert
  rw [if_neg h1, if_neg h2, if_pos (Or.inl ht)]
  cases c r.Source with
  | error err => rfl
  | ok re => simp only [if_pos ht]

theorem Insert_other_eq (c : Str → Except Str Regexp) (e : Str → Str)
    (rt : RedirectTree) (r : Redirect)
    (h1 : r.type ≠ RedirectTypeBasicHost) (h2 : r.type ≠ RedirectTypeBasic)
    (h3 : r.type ≠ RedirectTypeRegexHost) (h4 : r.type ≠ RedirectTypeRegex) :
    RedirectTree.Insert c e rt r = (rt, none) := by
  unfold RedirectTree.Insert
  rw [if_neg h1, if_neg h2, if_neg (by rintro (h | h) <;> [exact h3 h; exact h4 h])]

theorem take_one_isPrefixOf (input key : Str) (hk : key ≠ [])
    (h : key.isPrefixOf input = true) :
    (input.take (minInt input.length 1)).isPrefixOf key = true := by
  rw [List.isPrefixOf_iff_prefix] at h ⊢
  cases key with
  | nil => exact absurd rfl hk
  | cons c ks =>
    obtain ⟨t, ht⟩ := h
    subst ht
    simp [minInt, List.cons_prefix_cons]

/-- Claim C2: the candidate list assembled by `matchRegex` is exactly the
flattened buckets whose stored non-empty prefix key is a prefix of the
input, followed by the root bucket; and an inserted regex rule with empty
extracted prefix lands in its tier's root bucket, hence is a candidate on
every query of that tier. -/
theorem claim_C2 (tree : List (Str × regexBucket))
    (rootBucket : List compiledRedirect) (input : Str)
    (hkeys : ∀ kb ∈ tree, kb.1 ≠ ([] : Str)) :
    (walkCandidates tree input ++ rootBucket =
      (tree.filter (fun kb => kb.1.isPrefixOf input)).flatMap
        (fun kb => kb.2.redirects) ++ rootBucket) ∧
    (∀ (c : Str → Except Str Regexp) (e : Str → Str) (rt : RedirectTree)
        (r : Redirect) (re : Regexp),
      c r.Source = .ok re → e r.Source = [] →
      (r.type = RedirectTypeRegex →
        (RedirectTree.Insert c e rt r).1.regexRoot =
          rt.regexRoot ++ [⟨r, some re⟩] ∧
        ⟨r, some re⟩ ∈
          walkCandidates tree input ++
            (RedirectTree.Insert c e rt r).1.regexRoot) ∧
      (r.type = RedirectTypeRegexHost →
        (RedirectTree.Insert c e rt r).1.regexHostRoot =
          rt.regexHostRoot ++ [⟨r, some re⟩] ∧
        ⟨r, some re⟩ ∈
          walkCandidates tree input ++
            (RedirectTree.Insert c e rt r).1.regexHostRoot)) := by
  constructor
  · unfold walkCandidates
    rw [List.filter_congr ?_]
    intro kb hkb
    cases hp : kb.1.isPrefixOf input with
    | false => simp [hp]
    | true => simp [hp, take_one_isPrefixOf input kb.1 (hkeys kb hkb) hp]
  · intro c e rt r re hc hp
    constructor
    · intro ht
      have hroot : (RedirectTree.Insert c e rt r).1.regexRoot =
          rt.regexRoot ++ [⟨r, some re⟩] := by
        rw [Insert_regex_eq c e rt r ht, hc]
        simp [hp]
      exact ⟨hroot, by rw [hroot]; simp⟩
    · intro ht
      have hroot : (RedirectTree.Insert c e rt r).1.regexHostRoot =
          rt.regexHostRoot ++ [⟨r, some re⟩] := by
        rw [Insert_regexHost_eq c e rt r ht, hc]
        simp [hp]
      exact ⟨hroot, by rw [hroot]; simp⟩

theorem claim_C2_witness :
    (walkCandidates [("/a".toList, ⟨[wCrA]⟩)] "/ab".toList ++ [wCrB] =
      [wCrA, wCrB]) ∧
    ((RedirectTree.Insert toyCompile toyExtract NewRedirectTreeMatcher
        wRegexA).1.regexRoot = [⟨wRegexA, some (toyRe wRegexA.Source)⟩]) ∧
    (⟨wRegexA, some (toyRe wRegexA.Source)⟩ ∈
      walkCandidates [("/a".toList, ⟨[wCrA]⟩)] "/ab".toList ++
        (RedirectTree.Insert toyCompile toyExtract NewRedirectTreeMatcher
          wRegexA).1.regexRoot) := by
  have h := claim_C2 [("/a".toList, ⟨[wCrA]⟩)] [wCrB] "/ab".toList
    (by intro kb hkb; simp at hkb; rw [hkb]; decide)
  have h2 := (h.2 toyCompile toyExtract NewRedirectTreeMatcher wRegexA
    (toyRe wRegexA.Source) rfl rfl).1 rfl
  exact ⟨by rw [h.1]; rfl, h2.1, h2.2⟩

theorem mem_radixInsert {α : Type} (t : List (Str × α)) (k : Str) (v : α)
    (kb : Str × α) (h : kb ∈ radixInsert t k v) : kb ∈ t ∨ kb.1 = k := by
  induction t with
  | nil =>
    simp [radixInsert] at h
    subst h
    simp
  | cons kv rest ih =>
    obtain ⟨k0, v0⟩ := kv
    by_cases heq : k0 = k
    · simp [radixInsert, heq] at h
      rcases h with h | h
      · subst h; simp
      · exact Or.inl (List.mem_cons_of_mem _ h)
    · simp [radixInsert, heq] at h
      rcases h with h | h
      · subst h; simp
      · rcases ih h with h2 | h2
        · exact Or.inl (List.mem_cons_of_mem _ h2)
        · exact Or.inr h2

theorem mem_bucketInsert (t : List (Str × regexBucket)) (p : Str)
    (cr : compiledRedirect) (kb : Str × regexBucket)
    (h : kb ∈ bucketInsert t p cr) : kb ∈ t ∨ kb.1 = p := by
  unfold bucketInsert at h
  cases hg : radixGet t p with
  | some b => rw [hg] at h; exact mem_radixInsert _ _ _ _ h
  | none => rw [hg] at h; exact mem_radixInsert _ _ _ _ h

theorem foldl_insert_preserve (c : Str → Except Str Regexp) (e : Str → Str)
    (P : RedirectTree → Prop)
    (hstep : ∀ rt r, P rt → P ((RedirectTree.Insert c e rt r).1)) :
    ∀ (rs : List Redirect) (rt0 : RedirectTree), P rt0 →
      P (rs.foldl (fun rt r => (RedirectTree.Insert c e rt r).1) rt0) := by
  intro rs
  induction rs with
  | nil => intro rt0 h; exact h
  | cons r rest ih => intro rt0 h; exact ih _ (hstep rt0 r h)

theorem insert_keys_ne (c : Str → Except Str Regexp) (e : Str → Str)
    (rt : RedirectTree) (r : Redirect)
    (h : (∀ kb ∈ rt.regexHost, kb.1 ≠ ([] : Str)) ∧
      (∀ kb ∈ rt.regex, kb.1 ≠ ([] : Str))) :
    (∀ kb ∈ (RedirectTree.Insert c e rt r).1.regexHost,
      kb.1 ≠ ([] : Str)) ∧
    (∀ kb ∈ (RedirectTree.Insert c e rt r).1.regex, kb.1 ≠ ([] : Str)) := by
  by_cases h1 : r.type = RedirectTypeBasicHost
  · rw [Insert_basicHost_eq c e rt r h1]; exact h
  by_cases h2 : r.type = RedirectTypeBasic
  · rw [Insert_basic_eq c e rt r h2]; exact h
  by_cases h3 : r.type = RedirectTypeRegexHost
  · rw [Insert_regexHost_eq c e rt r h3]
    cases hc : c r.Source with
    | error err => exact h
    | ok re =>
      by_cases hp : e r.Source = []
      · simp only [if_pos hp]; exact h
      · simp only [if_neg hp]
        refine ⟨?_, h.2⟩
        intro kb hkb
        rcases mem_bucketInsert _ _ _ _ hkb with hm | hm
        · exact h.1 kb hm
        · rw [hm]; exact hp
  by_cases h4 : r.type = RedirectTypeRegex
  · rw [Insert_regex_eq c e rt r h4]
    cases hc : c r.Source with
    | error err => exact h
    | ok re =>
      by_cases hp : e r.Source = []
      · simp only [if_pos hp]; exact h
      · simp only [if_neg hp]
        refine ⟨h.1, ?_⟩
        intro kb hkb
        rcases mem_bucketInsert _ _ _ _ hkb with hm | hm
        · exact h.2 kb hm
        · rw [hm]; exact hp
  · rw [Insert_other_eq c e rt r h1 h2 h3 h4]; exact h

theorem buildTree_keys_ne (c : Str → Except Str Regexp) (e : Str → Str)
    (rs : List Redirect) :
    (∀ kb ∈ (buildTree c e rs).regexHost, kb.1 ≠ ([] : Str)) ∧
    (∀ kb ∈ (buildTree c e rs).regex, kb.1 ≠ ([] : Str)) := by
  unfold buildTree
  exact foldl_insert_preserve c e _ (fun rt r h => insert_keys_ne c e rt r h)
    rs NewRedirectTreeMatcher (by constructor <;> intro kb hkb <;> simp [NewRedirectTreeMatcher] at hkb)

theorem walkCandidates_nil_input (tree : List (Str × regexBucket))
    (hkeys : ∀ kb ∈ tree, kb.1 ≠ ([] : Str)) :
    walkCandidates tree [] = [] := by
  unfold walkCandidates
  rw [List.filter_eq_nil_iff.mpr ?_]
  · rfl
  · intro kb hkb
    cases hk : kb.1 with
    | nil => exact absurd hk (hkeys kb hkb)
    | cons ch ks => simp [hk, List.isPrefixOf]

/-- Claim C10: `RedirectTree.Match` is total on empty inputs: the regex
walk's seed slice is bounded by `min(len(input), 1)`, a tree built by
`Insert` stores no empty prefix key, so on an empty input each regex tier
reduces to scanning only its root bucket, and `Match` of empty host and uri
returns the no-match sentinel when no tier applies. -/
theorem claim_C10 (c : Str → Except Str Regexp) (e : Str → Str)
    (rs : List Redirect) :
    (∀ input : Str, (input.take (minInt input.length 1)).length ≤ 1) ∧
    (∀ kb ∈ (buildTree c e rs).regexHost, kb.1 ≠ ([] : Str)) ∧
    (∀ kb ∈ (buildTree c e rs).regex, kb.1 ≠ ([] : Str)) ∧
    (matchRegex (buildTree c e rs).regexHost
        (buildTree c e rs).regexHostRoot [] =
      firstSubmatch (sortBySourceLength (buildTree c e rs).regexHostRoot)
        []) ∧
    (matchRegex (buildTree c e rs).regex (buildTree c e rs).regexRoot [] =
      firstSubmatch (sortBySourceLength (buildTree c e rs).regexRoot) []) ∧
    (radixGet (buildTree c e rs).basicHost [] = none →
      radixGet (buildTree c e rs).basic [] = none →
        (matchRegex (buildTree c e rs).regexHost
          (buildTree c e rs).regexHostRoot []).1 = none →
          (matchRegex (buildTree c e rs).regex
            (buildTree c e rs).regexRoot []).1 = none →
            (buildTree c e rs).Match [] [] = (none, [])) := by
  have hk := buildTree_keys_ne c e rs
  refine ⟨?_, hk.1, hk.2, ?_, ?_, ?_⟩
  · intro input
    rcases input with _ | ⟨ch, rest⟩
    · simp [minInt]
    · simp [minInt]
  · unfold matchRegex
    rw [walkCandidates_nil_input _ hk.1, List.nil_append]
  · unfold matchRegex
    rw [walkCandidates_nil_input _ hk.2, List.nil_append]
  · intro h1 h2 h3 h4
    rcases hm : matchRegex (buildTree c e rs).regexHost
      (buildTree c e rs).regexHostRoot [] with ⟨f1, s1⟩
    rw [hm] at h3
    simp only at h3
    subst h3
    rcases hm2 : matchRegex (buildTree c e rs).regex
      (buildTree c e rs).regexRoot [] with ⟨f2, s2⟩
    rw [hm2] at h4
    simp only at h4
    subst h4
    simp [RedirectTree.Match, h1, h2]
    simp [hm, hm2]

theorem claim_C10_witness :
    ((("ab".toList : Str).take (minInt "ab".toList.length 1)).length ≤ 1) ∧
    (matchRegex (buildTree toyCompile toyExtract [wRegexA]).regex
        (buildTree toyCompile toyExtract [wRegexA]).regexRoot [] =
      firstSubmatch
        (sortBySourceLength
          (buildTree toyCompile toyExtract [wRegexA]).regexRoot) []) ∧
    ((buildTree toyCompile toyExtract [wRegexA]).Match [] [] = (none, [])) :=
  ⟨(claim_C10 toyCompile toyExtract [wRegexA]).1 "ab".toList,
    (claim_C10 toyCompile toyExtract [wRegexA]).2.2.2.2.1,
    (claim_C10 toyCompile toyExtract [wRegexA]).2.2.2.2.2 rfl rfl rfl rfl⟩

/-- Claim C3 fails on the code: for the pattern `(ab?)c` — whose parse tree
is `patternABQC` — the extractor walks the concatenation, descends into the
capture group, takes its partial prefix `a`, and then keeps accumulating
the following literal `c`, deriving the prefix `ac`; but the pattern
matches `abc`, which does not start with `ac`.  The derived prefix is
therefore not guaranteed to start every string the regex can match. -/
theorem claim_C3_code_bug :
    extractLiteralPrefix patternABQC = ['a', 'c'] ∧
    SynMatches patternABQC ['a', 'b', 'c'] ∧
    ¬ (['a', 'c'] : Str) <+: ['a', 'b', 'c'] := by
  refine ⟨by decide, ?_, by decide⟩
  have h : (['a', 'b', 'c'] : Str) = (['a'] ++ ['b']) ++ (['c'] ++ []) := by
    decide
  rw [h]
  apply SynMatches.concatCons
  · apply SynMatches.capture
    apply SynMatches.concatCons
    · exact SynMatches.literal ['a']
    · have h2 : (['b'] : Str) = ['b'] ++ [] := by decide
      rw [h2]
      exact SynMatches.concatCons _ _ _ _
        (SynMatches.questSome _ _ (SynMatches.literal ['b']))
        SynMatches.concatNil
  · exact SynMatches.concatCons _ _ _ _ (SynMatches.literal ['c'])
      SynMatches.concatNil

theorem specSubstK_cons2 (ms : List Str) (k : Nat) (d : Char) (r : Str) :
    specSubstK ms k ('$' :: d :: r) =
      if 1 ≤ d.toNat - '0'.toNat ∧ d.toNat - '0'.toNat ≤ 9 ∧
          d.toNat - '0'.toNat ≤ k ∧ d.toNat - '0'.toNat < ms.length then
        ms.getD (d.toNat - '0'.toNat) [] ++ specSubstK ms k r
      else '$' :: specSubstK ms k (d :: r) := rfl

theorem specSubstK_cons_ne (ms : List Str) (k : Nat) (c : Char) (rest : Str)
    (hc : c ≠ '$') :
    specSubstK ms k (c :: rest) = c :: specSubstK ms k rest := by
  cases rest with
  | nil => simp [specSubstK, hc]
  | cons d r => simp [specSubstK, hc]

theorem replaceAllGo_skip (o : Char) (os v : Str) :
    ∀ (k : Nat) (s : Str),
      replaceAllGo o os v k s = replaceAllGo o os v 0 (List.drop k s) := by
  intro k
  induction k with
  | zero => intro s; simp
  | succ n ih =>
    intro s
    cases s with
    | nil => simp [replaceAllGo]
    | cons c rest => simp [replaceAllGo, ih]

theorem replaceAll_not_pref (c : Char) (rest : Str) (o : Char) (os v : Str)
    (h : (o :: os).isPrefixOf (c :: rest) = false) :
    replaceAll (c :: rest) (o :: os) v = c :: replaceAll rest (o :: os) v := by
  simp [replaceAll, replaceAllGo, h]

theorem replaceAll_pref (c : Char) (rest : Str) (o : Char) (os v : Str)
    (h : (o :: os).isPrefixOf (c :: rest) = true) :
    replaceAll (c :: rest) (o :: os) v =
      v ++ replaceAll (List.drop os.length rest) (o :: os) v := by
  simp [replaceAll, replaceAllGo, h, replaceAllGo_skip]

theorem specSubstK_zero (ms : List Str) : ∀ t, specSubstK ms 0 t = t := by
  intro t
  induction t with
  | nil => rfl
  | cons c rest ih =>
    by_cases hc : c = '$'
    · subst hc
      cases rest with
      | nil => rfl
      | cons d r =>
        rw [specSubstK_cons2, if_neg (by omega), ih]
    · rw [specSubstK_cons_ne ms 0 c rest hc, ih]

theorem specSubstK_clean_append (ms : List Str) (k : Nat) (v w : Str)
    (hv : '$' ∉ v) : specSubstK ms k (v ++ w) = v ++ specSubstK ms k w := by
  induction v with
  | nil => simp
  | cons c v' ih =>
    have hc : c ≠ '$' := fun h => hv (by rw [h]; exact List.mem_cons_self _ _)
    rw [List.cons_append, specSubstK_cons_ne _ _ _ _ hc,
      ih (fun h => hv (List.mem_cons_of_mem _ h)), List.cons_append]

theorem noDD_tail (d : Char) (r : Str)
    (h : noDollarDollar (d :: r) = true) : noDollarDollar r = true := by
  cases r with
  | nil => rfl
  | cons e r' =>
    have : noDollarDollar (d :: e :: r') =
        (!(d == '$' && e == '$') && noDollarDollar (e :: r')) := rfl
    rw [this] at h
    exact (Bool.and_eq_true_iff.mp h).2

theorem noDD_dollar (d : Char) (r : Str)
    (h : noDollarDollar ('$' :: d :: r) = true) : d ≠ '$' := by
  have : noDollarDollar ('$' :: d :: r) =
      (!(('$' : Char) == '$' && d == '$') && noDollarDollar (d :: r)) := rfl
  rw [this] at h
  intro hd
  subst hd
  simp at h

theorem noDD_append_clean (v w : Str) (hv : '$' ∉ v)
    (hw : noDollarDollar w = true) : noDollarDollar (v ++ w) = true := by
  induction v with
  | nil => simpa using hw
  | cons c v' ih =>
    have hc : c ≠ '$' := fun h => hv (by rw [h]; exact List.mem_cons_self _ _)
    have ih2 := ih (fun h => hv (List.mem_cons_of_mem _ h))
    rw [List.cons_append]
    cases hvw : v' ++ w with
    | nil => rfl
    | cons e r =>
      rw [hvw] at ih2
      have : noDollarDollar (c :: e :: r) =
          (!(c == '$' && e == '$') && noDollarDollar (e :: r)) := rfl
      rw [this, ih2]
      simp [hc]

theorem digit_toNat (j : Nat) (h1 : 1 ≤ j) (h2 : j ≤ 9) :
    (Char.ofNat ('0'.toNat + j)).toNat = '0'.toNat + j := by
  interval_cases j <;> decide

theorem digit_ne_dollar (j : Nat) (h1 : 1 ≤ j) (h2 : j ≤ 9) :
    Char.ofNat ('0'.toNat + j) ≠ '$' := by
  interval_cases j <;> decide

theorem char_eq_of_toNat (a b : Char) (h : a.toNat = b.toNat) : a = b :=
  Char.ofNat_toNat a ▸ Char.ofNat_toNat b ▸ congrArg Char.ofNat h

theorem replaceAll_noDD (dj : Char) (hdj : dj ≠ '$') (v : Str)
    (hv : '$' ∉ v) :
    ∀ (n : Nat) (t : Str), t.length ≤ n → noDollarDollar t = true →
      noDollarDollar (replaceAll t ('$' :: [dj]) v) = true := by
  intro n
  induction n with
  | zero =>
    intro t ht _
    cases t with
    | nil => rfl
    | cons c rest => simp at ht
  | succ m ih =>
    intro t ht hdd
    match t with
    | [] => rfl
    | [c] =>
      have hnp : (('$' :: [dj]).isPrefixOf [c]) = false := by
        simp [List.isPrefixOf]
      rw [replaceAll_not_pref _ _ _ _ _ hnp]
      rfl
    | c :: d :: r =>
      have hddT : noDollarDollar (c :: d :: r) =
          (!(c == '$' && d == '$') && noDollarDollar (d :: r)) := rfl
      rw [hddT] at hdd
      obtain ⟨hcd, hdr⟩ := Bool.and_eq_true_iff.mp hdd
      have hlen2 : (d :: r).length ≤ m := by simp at ht ⊢; omega
      by_cases hc : c = '$'
      · subst hc
        have hd : d ≠ '$' := by
          intro h
          subst h
          simp at hcd
        by_cases hdjd : d = dj
        · subst hdjd
          have hpref : (('$' :: [d]).isPrefixOf ('$' :: d :: r)) = true := by
            simp [List.isPrefixOf]
          rw [replaceAll_pref _ _ _ _ _ hpref]
          have hr : noDollarDollar r = true := noDD_tail _ _ hdr
          have hrl : (List.drop [d].length ('$' :: d :: r).tail).length ≤ m := by
            simp at ht ⊢
            omega
          exact noDD_append_clean _ _ hv
            (ih _ (by simp at ht ⊢; omega) hr)
        · have hnp : (('$' :: [dj]).isPrefixOf ('$' :: d :: r)) = false := by
            simp [List.isPrefixOf]
            intro h
            exact absurd h.symm hdjd
          rw [replaceAll_not_pref _ _ _ _ _ hnp]
          have hnp2 : (('$' :: [dj]).isPrefixOf (d :: r)) = false := by
            simp [List.isPrefixOf]
            intro h
            exact absurd h.symm hd
          have hyrec := ih (d :: r) hlen2 hdr
          rw [replaceAll_not_pref _ _ _ _ _ hnp2] at hyrec ⊢
          have : noDollarDollar ('$' :: d :: replaceAll r ('$' :: [dj]) v) =
              (!(('$' : Char) == '$' && d == '$') &&
                noDollarDollar (d :: replaceAll r ('$' :: [dj]) v)) := rfl
          rw [this, hyrec]
          simp [hd]
      · have hnp : (('$' :: [dj]).isPrefixOf (c :: d :: r)) = false := by
          simp [List.isPrefixOf]
          intro h
          exact absurd h.symm hc
        rw [replaceAll_not_pref _ _ _ _ _ hnp]
        have hyrec := ih (d :: r) hlen2 hdr
        cases hy : replaceAll (d :: r) ('$' :: [dj]) v with
        | nil => rfl
        | cons e r' =>
          rw [hy] at hyrec
          have : noDollarDollar (c :: e :: r') =
              (!(c == '$' && e == '$') && noDollarDollar (e :: r')) := rfl
          rw [this, hyrec]
          simp [hc]

theorem specSubstK_step (ms : List Str) (k : Nat) (v : Str)
    (hv : '$' ∉ v) (hk9 : k + 1 ≤ 9) (hklen : k + 1 < ms.length)
    (hvv : ms.getD (k + 1) [] = v) :
    ∀ (n : Nat) (t : Str), t.length ≤ n → noDollarDollar t = true →
      specSubstK ms (k + 1) t =
        specSubstK ms k (replaceAll t (placeholderFor (k + 1)) v) := by
  have h0 : '0'.toNat = 48 := rfl
  have hdjn : (Char.ofNat ('0'.toNat + (k + 1))).toNat = '0'.toNat + (k + 1) :=
    digit_toNat _ (by omega) hk9
  have hphc : placeholderFor (k + 1) =
      '$' :: [Char.ofNat ('0'.toNat + (k + 1))] := rfl
  intro n
  induction n with
  | zero =>
    intro t ht _
    cases t with
    | nil => rfl
    | cons c rest => simp at ht
  | succ m ih =>
    intro t ht hdd
    match t with
    | [] => rfl
    | c :: rest =>
      by_cases hc : c = '$'
      · subst hc
        cases rest with
        | nil =>
          rw [hphc, replaceAll_not_pref _ _ _ _ _ (by simp [List.isPrefixOf])]
          rfl
        | cons d rest' =>
          have hd : d ≠ '$' := noDD_dollar d rest' hdd
          have hddtail : noDollarDollar (d :: rest') = true :=
            noDD_tail _ _ hdd
          have hddr : noDollarDollar rest' = true := noDD_tail _ _ hddtail
          have hlr : rest'.length ≤ m := by
            simp only [List.length_cons] at ht
            omega
          by_cases hdj : d = Char.ofNat ('0'.toNat + (k + 1))
          · have hn : d.toNat - '0'.toNat = k + 1 := by
              rw [hdj, hdjn]
              omega
            have hpref :
                (('$' :: [Char.ofNat ('0'.toNat + (k + 1))]).isPrefixOf
                  ('$' :: d :: rest')) = true := by
              rw [hdj]
              simp [List.isPrefixOf]
            rw [hphc, replaceAll_pref _ _ _ _ _ hpref]
            simp only [List.length_cons, List.length_nil, Nat.zero_add,
              List.drop_succ_cons, List.drop_zero]
            rw [specSubstK_clean_append _ _ _ _ hv, specSubstK_cons2,
              if_pos ⟨by omega, by omega, by omega, by omega⟩, hn, hvv]
            congr 1
            exact ih rest' hlr hddr
          · have hnp :
                (('$' :: [Char.ofNat ('0'.toNat + (k + 1))]).isPrefixOf
                  ('$' :: d :: rest')) = false := by
              simp [List.isPrefixOf]
              intro h
              exact absurd h.symm hdj
            have hnp2 :
                (('$' :: [Char.ofNat ('0'.toNat + (k + 1))]).isPrefixOf
                  (d :: rest')) = false := by
              simp [List.isPrefixOf]
              intro h
              exact absurd h.symm hd
            rw [hphc, replaceAll_not_pref _ _ _ _ _ hnp,
              replaceAll_not_pref _ _ _ _ _ hnp2, specSubstK_cons2,
              specSubstK_cons2]
            have hne : d.toNat - '0'.toNat ≠ k + 1 := by
              intro h
              apply hdj
              apply char_eq_of_toNat
              rw [hdjn]
              omega
            by_cases htk : 1 ≤ d.toNat - '0'.toNat ∧ d.toNat - '0'.toNat ≤ 9 ∧
                d.toNat - '0'.toNat ≤ k ∧ d.toNat - '0'.toNat < ms.length
            · rw [if_pos ⟨htk.1, htk.2.1, by omega, htk.2.2.2⟩, if_pos htk]
              congr 1
              exact ih rest' hlr hddr
            · rw [if_neg (by
                  intro hcon
                  exact htk ⟨hcon.1, hcon.2.1, by omega, hcon.2.2.2⟩),
                if_neg htk]
              congr 1
              rw [specSubstK_cons_ne _ _ _ _ hd, specSubstK_cons_ne _ _ _ _ hd]
              congr 1
              exact ih rest' hlr hddr
      · have hnp : (('$' :: [Char.ofNat ('0'.toNat + (k + 1))]).isPrefixOf
            (c :: rest)) = false := by
          simp [List.isPrefixOf]
          intro h
          exact absurd h.symm hc
        have hlr : rest.length ≤ m := by
          simp only [List.length_cons] at ht
          omega
        rw [hphc, replaceAll_not_pref _ _ _ _ _ hnp,
          specSubstK_cons_ne _ _ _ _ hc, specSubstK_cons_ne _ _ _ _ hc]
        congr 1
        exact ih rest hlr (noDD_tail _ _ hdd)

theorem specSubstK_congrK (ms : List Str) (k1 k2 : Nat)
    (h : ∀ n, 1 ≤ n → n ≤ 9 → n < ms.length → (n ≤ k1 ↔ n ≤ k2)) :
    ∀ (n : Nat) (t : Str), t.length ≤ n →
      specSubstK ms k1 t = specSubstK ms k2 t := by
  intro n
  induction n with
  | zero =>
    intro t ht
    cases t with
    | nil => rfl
    | cons c rest => simp at ht
  | succ m ih =>
    intro t ht
    match t with
    | [] => rfl
    | c :: rest =>
      by_cases hc : c = '$'
      · subst hc
        cases rest with
        | nil => rfl
        | cons d rest' =>
          have hlr : rest'.length ≤ m := by
            simp only [List.length_cons] at ht
            omega
          have hlr2 : (d :: rest').length ≤ m := by
            simp only [List.length_cons] at ht ⊢
            omega
          rw [specSubstK_cons2, specSubstK_cons2]
          by_cases htk : 1 ≤ d.toNat - '0'.toNat ∧ d.toNat - '0'.toNat ≤ 9 ∧
              d.toNat - '0'.toNat ≤ k1 ∧ d.toNat - '0'.toNat < ms.length
          · rw [if_pos htk, if_pos ⟨htk.1, htk.2.1,
              (h _ htk.1 htk.2.1 htk.2.2.2).mp htk.2.2.1, htk.2.2.2⟩]
            congr 1
            exact ih rest' hlr
          · rw [if_neg htk, if_neg (by
              intro hcon
              exact htk ⟨hcon.1, hcon.2.1,
                (h _ hcon.1 hcon.2.1 hcon.2.2.2).mpr hcon.2.2.1, hcon.2.2.2⟩)]
            congr 1
            exact ih (d :: rest') hlr2
      · have hlr : rest.length ≤ m := by
          simp only [List.length_cons] at ht
          omega
        rw [specSubstK_cons_ne _ _ _ _ hc, specSubstK_cons_ne _ _ _ _ hc]
        congr 1
        exact ih rest hlr

theorem resolveTargetLoop_spec (ms : List Str)
    (hms : ∀ v ∈ ms, '$' ∉ v) :
    ∀ (k : Nat), k ≤ 9 → k + 1 ≤ ms.length →
      ∀ t, noDollarDollar t = true →
        resolveTargetLoop ms k t = specSubstK ms k t := by
  intro k
  induction k with
  | zero =>
    intro _ _ t _
    rw [specSubstK_zero]
    rfl
  | succ kk ih =>
    intro hk9 hklen t hdd
    have hlt : kk + 1 < ms.length := by omega
    have hvmem : ms.getD (kk + 1) [] ∈ ms := by
      rw [List.getD_eq_getElem ms [] hlt]
      exact List.getElem_mem hlt
    have hvc : '$' ∉ ms.getD (kk + 1) [] := hms _ hvmem
    have hdd2 : noDollarDollar
        (replaceAll t (placeholderFor (kk + 1)) (ms.getD (kk + 1) [])) =
          true :=
      replaceAll_noDD _ (digit_ne_dollar _ (by omega) (by omega)) _ hvc
        t.length t le_rfl hdd
    rw [resolveTargetLoop, ih (by omega) (by omega) _ hdd2]
    exact (specSubstK_step ms kk _ hvc (by omega) hlt rfl t.length t le_rfl
      hdd).symm

/-- Claim C5 fails on the code as stated: `resolveTarget` applies the
replacements sequentially from `$9` down to `$1`, so a token brought in by a
captured value is substituted again by a later (lower-index) pass instead of
staying part of its own group's value.  With template `$2` and groups
`["AB", "A", "x$1y"]`, replacing each token exactly once with its own group
gives `x$1y`, but the code returns `xAy`. -/
theorem claim_C5_cex :
    resolveTarget "$2".toList ["AB".toList, "A".toList, "x$1y".toList] =
      "xAy".toList ∧
    specSubst ["AB".toList, "A".toList, "x$1y".toList] "$2".toList =
      "x$1y".toList ∧
    resolveTarget "$2".toList ["AB".toList, "A".toList, "x$1y".toList] ≠
      specSubst ["AB".toList, "A".toList, "x$1y".toList] "$2".toList := by
  refine ⟨by decide, by decide, by decide⟩

/-- Claim C5, amended: when no captured value contains a `$` character, the
template never holds two adjacent `$` characters, and the group list has at
most ten entries (group 0 plus `$1`…`$9`), `resolveTarget` replaces each
template token `$1`…`$9` exactly once with its own group's value and leaves
any token beyond the captured groups as a literal: it agrees with the
one-pass substitution `specSubst`. -/
theorem claim_C5 (template : Str) (ms : List Str)
    (hms : ∀ v ∈ ms, '$' ∉ v)
    (hdd : noDollarDollar template = true)
    (hlen : ms.length ≤ 10) :
    resolveTarget template ms = specSubst ms template := by
  unfold resolveTarget specSubst
  rcases Nat.eq_zero_or_pos ms.length with h0 | hpos
  · rw [h0]
    have h9 : specSubstK ms 9 template = specSubstK ms 0 template :=
      specSubstK_congrK ms 9 0 (by intro n _ _ hn; omega) template.length
        template le_rfl
    rw [h9, specSubstK_zero]
    rfl
  · rw [resolveTargetLoop_spec ms hms (ms.length - 1) (by omega) (by omega)
      template hdd]
    exact specSubstK_congrK ms (ms.length - 1) 9
      (by intro n h1 h9 hn; omega) template.length template le_rfl

theorem claim_C5_witness :
    (∀ v ∈ ["/old/foo/bar".toList, "foo".toList, "bar".toList], '$' ∉ v) ∧
    noDollarDollar "/new/$2/$1".toList = true ∧
    ([ "/old/foo/bar".toList, "foo".toList, "bar".toList ] :
      List Str).length ≤ 10 ∧
    resolveTarget "/new/$2/$1".toList
        ["/old/foo/bar".toList, "foo".toList, "bar".toList] =
      specSubst ["/old/foo/bar".toList, "foo".toList, "bar".toList]
        "/new/$2/$1".toList ∧
    resolveTarget "/new/$2/$1".toList
        ["/old/foo/bar".toList, "foo".toList, "bar".toList] =
      "/new/bar/foo".toList :=
  ⟨by decide, by decide, by decide,
    claim_C5 "/new/$2/$1".toList
      ["/old/foo/bar".toList, "foo".toList, "bar".toList]
      (by decide) (by decide) (by decide),
    by decide⟩

theorem sortLen_perm (l : List compiledRedirect) : List.Perm (sortBySourceLength l) l :=
  List.perm_insertionSort _ l

theorem sortLen_sorted (l : List compiledRedirect) :
    List.Sorted
      (fun a b => b.Redirect.Source.length ≤ a.Redirect.Source.length)
      (sortBySourceLength l) := by
  haveI : IsTotal compiledRedirect
      (fun a b => b.Redirect.Source.length ≤ a.Redirect.Source.length) :=
    ⟨fun a b => Nat.le_total _ _⟩
  haveI : IsTrans compiledRedirect
      (fun a b => b.Redirect.Source.length ≤ a.Redirect.Source.length) :=
    ⟨fun a b c hab hbc => Nat.le_trans hbc hab⟩
  exact List.sorted_insertionSort _ l

theorem sorted_eq_of_perm_distinct (l1 l2 : List compiledRedirect)
    (hp : List.Perm l1 l2)
    (hs1 : List.Sorted
      (fun a b => b.Redirect.Source.length ≤ a.Redirect.Source.length) l1)
    (hs2 : List.Sorted
      (fun a b => b.Redirect.Source.length ≤ a.Redirect.Source.length) l2)
    (hn : (l1.map (fun cr => cr.Redirect.Source.length)).Nodup) :
    l1 = l2 := by
  have hn2 : (l2.map (fun cr => cr.Redirect.Source.length)).Nodup :=
    ((hp.map _).nodup_iff).mp hn
  have hne1 : List.Pairwise
      (fun a b : compiledRedirect =>
        a.Redirect.Source.length ≠ b.Redirect.Source.length) l1 :=
    List.pairwise_map.mp hn
  have hne2 : List.Pairwise
      (fun a b : compiledRedirect =>
        a.Redirect.Source.length ≠ b.Redirect.Source.length) l2 :=
    List.pairwise_map.mp hn2
  have hst1 : List.Sorted
      (fun a b : compiledRedirect =>
        b.Redirect.Source.length < a.Redirect.Source.length) l1 :=
    (hs1.and hne1).imp (fun h => by omega)
  have hst2 : List.Sorted
      (fun a b : compiledRedirect =>
        b.Redirect.Source.length < a.Redirect.Source.length) l2 :=
    (hs2.and hne2).imp (fun h => by omega)
  haveI : IsAntisymm compiledRedirect
      (fun a b : compiledRedirect =>
        b.Redirect.Source.length < a.Redirect.Source.length) :=
    ⟨fun a b h1 h2 => by omega⟩
  exact List.eq_of_perm_of_sorted hp hst1 hst2

theorem firstSubmatch_some (input : Str) :
    ∀ cands : List compiledRedirect,
      List.Sorted
        (fun a b => b.Redirect.Source.length ≤ a.Redirect.Source.length)
        cands →
      ∀ r t, firstSubmatch cands input = (some r, t) →
        ∃ cr m, cr ∈ cands ∧ cr.Redirect = r ∧ crFind cr input = some m ∧
          t = resolveTarget r.Target m ∧
          ∀ cr' ∈ cands,
            cr.Redirect.Source.length < cr'.Redirect.Source.length →
              crFind cr' input = none := by
  intro cands
  induction cands with
  | nil =>
    intro _ r t h
    simp [firstSubmatch] at h
  | cons cr0 rest ih =>
    intro hs r t h
    cases hf : crFind cr0 input with
    | some m =>
      simp only [firstSubmatch, hf] at h
      have h1 : some cr0.Redirect = some r := congrArg Prod.fst h
      have h2 : resolveTarget cr0.Redirect.Target m = t := congrArg Prod.snd h
      have hr : cr0.Redirect = r := Option.some.inj h1
      refine ⟨cr0, m, List.mem_cons_self _ _, hr, hf, by rw [← h2, hr], ?_⟩
      intro cr' hm hlt
      rcases List.mem_cons.mp hm with h' | h'
      · rw [h'] at hlt
        omega
      · have hle := (List.sorted_cons.mp hs).1 cr' h'
        omega
    | none =>
      simp only [firstSubmatch, hf] at h
      obtain ⟨cr, m, hmem, hred, hfind, ht, hall⟩ :=
        ih (List.sorted_cons.mp hs).2 r t h
      refine ⟨cr, m, List.mem_cons_of_mem _ hmem, hred, hfind, ht, ?_⟩
      intro cr' hm hlt
      rcases List.mem_cons.mp hm with h' | h'
      · rw [h']
        exact hf
      · exact hall cr' h' hlt

theorem firstSubmatch_none_iff (input : Str) :
    ∀ cands : List compiledRedirect,
      (firstSubmatch cands input).1 = none ↔
        ∀ cr ∈ cands, crFind cr input = none := by
  intro cands
  induction cands with
  | nil => simp [firstSubmatch]
  | cons cr0 rest ih =>
    cases hf : crFind cr0 input with
    | some m =>
      simp only [firstSubmatch, hf]
      constructor
      · intro h
        simp at h
      · intro h
        rw [h cr0 (List.mem_cons_self _ _)] at hf
        simp at hf
    | none =>
      simp only [firstSubmatch, hf]
      rw [ih]
      constructor
      · intro h cr hm
        rcases List.mem_cons.mp hm with h' | h'
        · rw [h']
          exact hf
        · exact h cr h'
      · intro h cr hm
        exact h cr (List.mem_cons_of_mem _ hm)

theorem walkCond_true (k uri : Str) (hk : k ≠ []) (hp : k.isPrefixOf uri = true) :
    ((uri.take (minInt uri.length 1)).isPrefixOf k && k.isPrefixOf uri) = true := by
  rw [take_one_isPrefixOf uri k hk hp, hp]
  rfl

theorem walkCandidates_nil_tree (input : Str) : walkCandidates [] input = [] := rfl

theorem walkCandidates_cons (k : Str) (b : regexBucket)
    (tree : List (Str × regexBucket)) (input : Str) :
    walkCandidates ((k, b) :: tree) input =
      (if ((input.take (minInt input.length 1)).isPrefixOf k &&
          k.isPrefixOf input) = true then b.redirects else []) ++
        walkCandidates tree input := by
  unfold walkCandidates
  by_cases h : ((input.take (minInt input.length 1)).isPrefixOf k &&
      k.isPrefixOf input) = true
  · rw [if_pos h, List.filter_cons_of_pos (by exact h), List.flatMap_cons]
  · rw [if_neg h, List.filter_cons_of_neg (by simpa using h), List.nil_append]

theorem twoRegexState (c : Str → Except Str Regexp) (e : Str → Str)
    (ra rb : Redirect) (rea reb : Regexp)
    (hta : ra.type = RedirectTypeRegex) (htb : rb.type = RedirectTypeRegex)
    (hca : c ra.Source = .ok rea) (hcb : c rb.Source = .ok reb) :
    (buildTree c e [ra, rb]).basicHost = [] ∧
    (buildTree c e [ra, rb]).basic = [] ∧
    (buildTree c e [ra, rb]).regexHost = [] ∧
    (buildTree c e [ra, rb]).regexHostRoot = [] ∧
    ∀ uri : Str, (e ra.Source = [] ∨ (e ra.Source).isPrefixOf uri = true) →
      (e rb.Source = [] ∨ (e rb.Source).isPrefixOf uri = true) →
      List.Perm
        (walkCandidates (buildTree c e [ra, rb]).regex uri ++
          (buildTree c e [ra, rb]).regexRoot)
        [⟨ra, some rea⟩, ⟨rb, some reb⟩] := by
  have hb : buildTree c e [ra, rb] =
      (RedirectTree.Insert c e
        (RedirectTree.Insert c e NewRedirectTreeMatcher ra).1 rb).1 := rfl
  by_cases hpa : e ra.Source = []
  · have hrt1 : (RedirectTree.Insert c e NewRedirectTreeMatcher ra).1 =
        { NewRedirectTreeMatcher with regexRoot := [⟨ra, some rea⟩] } := by
      rw [Insert_regex_eq c e _ ra hta, hca]
      simp [hpa, NewRedirectTreeMatcher]
    by_cases hpb : e rb.Source = []
    · have hrt2 : buildTree c e [ra, rb] =
          { NewRedirectTreeMatcher with
              regexRoot := [⟨ra, some rea⟩, ⟨rb, some reb⟩] } := by
        rw [hb, hrt1, Insert_regex_eq c e _ rb htb, hcb]
        simp [hpb, NewRedirectTreeMatcher]
      rw [hrt2]
      refine ⟨rfl, rfl, rfl, rfl, ?_⟩
      intro uri _ _
      exact List.Perm.refl _
    · have hrt2 : buildTree c e [ra, rb] =
          { NewRedirectTreeMatcher with
              regex := [(e rb.Source, ⟨[⟨rb, some reb⟩]⟩)]
              regexRoot := [⟨ra, some rea⟩] } := by
        rw [hb, hrt1, Insert_regex_eq c e _ rb htb, hcb]
        simp [hpb, NewRedirectTreeMatcher, bucketInsert, radixGet, radixInsert]
      rw [hrt2]
      refine ⟨rfl, rfl, rfl, rfl, ?_⟩
      intro uri _ hprb
      have hprb2 := hprb.resolve_left hpb
      rw [walkCandidates_cons, if_pos (walkCond_true _ _ hpb hprb2),
        walkCandidates_nil_tree, List.append_nil]
      exact List.Perm.swap _ _ _
  · have hrt1 : (RedirectTree.Insert c e NewRedirectTreeMatcher ra).1 =
        { NewRedirectTreeMatcher with
            regex := [(e ra.Source, ⟨[⟨ra, some rea⟩]⟩)] } := by
      rw [Insert_regex_eq c e _ ra hta, hca]
      simp [hpa, NewRedirectTreeMatcher, bucketInsert, radixGet, radixInsert]
    by_cases hpb : e rb.Source = []
    · have hrt2 : buildTree c e [ra, rb] =
          { NewRedirectTreeMatcher with
              regex := [(e ra.Source, ⟨[⟨ra, some rea⟩]⟩)]
              regexRoot := [⟨rb, some reb⟩] } := by
        rw [hb, hrt1, Insert_regex_eq c e _ rb htb, hcb]
        simp [hpb, NewRedirectTreeMatcher]
      rw [hrt2]
      refine ⟨rfl, rfl, rfl, rfl, ?_⟩
      intro uri hpra _
      have hpra2 := hpra.resolve_left hpa
      rw [walkCandidates_cons, if_pos (walkCond_true _ _ hpa hpra2),
        walkCandidates_nil_tree, List.append_nil]
      exact List.Perm.refl _
    · by_cases hpp : e ra.Source = e rb.Source
      · have hrt2 : buildTree c e [ra, rb] =
            { NewRedirectTreeMatcher with
                regex := [(e ra.Source,
                  ⟨[⟨ra, some rea⟩, ⟨rb, some reb⟩]⟩)] } := by
          rw [hb, hrt1, Insert_regex_eq c e _ rb htb, hcb]
          simp [hpb, NewRedirectTreeMatcher, bucketInsert, radixGet,
            radixInsert, hpp]
        rw [hrt2]
        refine ⟨rfl, rfl, rfl, rfl, ?_⟩
        intro uri hpra _
        have hpra2 := hpra.resolve_left hpa
        rw [walkCandidates_cons, if_pos (walkCond_true _ _ hpa hpra2),
          walkCandidates_nil_tree]
        simp [NewRedirectTreeMatcher]
      · have hrt2 : buildTree c e [ra, rb] =
            { NewRedirectTreeMatcher with
                regex := [(e ra.Source, ⟨[⟨ra, some rea⟩]⟩),
                  (e rb.Source, ⟨[⟨rb, some reb⟩]⟩)] } := by
          rw [hb, hrt1, Insert_regex_eq c e _ rb htb, hcb]
          have hpp2 : e ra.Source ≠ e rb.Source := hpp
          simp [hpb, NewRedirectTreeMatcher, bucketInsert, radixGet,
            radixInsert, hpp2]
        rw [hrt2]
        refine ⟨rfl, rfl, rfl, rfl, ?_⟩
        intro uri hpra hprb
        have hpra2 := hpra.resolve_left hpa
        have hprb2 := hprb.resolve_left hpb
        rw [walkCandidates_cons, if_pos (walkCond_true _ _ hpa hpra2),
          walkCandidates_cons, if_pos (walkCond_true _ _ hpb hprb2),
          walkCandidates_nil_tree]
        simp [NewRedirectTreeMatcher]

theorem matchRegex_nil (input : Str) : matchRegex [] [] input = (none, []) :=
  rfl

theorem twoRegexMatchResult (c : Str → Except Str Regexp) (e : Str → Str)
    (ra rb : Redirect) (rea reb : Regexp) (m1 : List Str) (host uri : Str)
    (hta : ra.type = RedirectTypeRegex) (htb : rb.type = RedirectTypeRegex)
    (hca : c ra.Source = .ok rea) (hcb : c rb.Source = .ok reb)
    (hpa : e ra.Source = [] ∨ (e ra.Source).isPrefixOf uri = true)
    (hpb : e rb.Source = [] ∨ (e rb.Source).isPrefixOf uri = true)
    (hlt : rb.Source.length < ra.Source.length)
    (hfa : rea.FindStringSubmatch uri = some m1) :
    (buildTree c e [ra, rb]).Match host uri =
      (some ra, resolveTarget ra.Target m1) ∧
    (buildTree c e [rb, ra]).Match host uri =
      (some ra, resolveTarget ra.Target m1) := by
  have final : ∀ rt : RedirectTree, rt.basicHost = [] → rt.basic = [] →
      rt.regexHost = [] → rt.regexHostRoot = [] →
      List.Perm (walkCandidates rt.regex uri ++ rt.regexRoot)
        [⟨ra, some rea⟩, ⟨rb, some reb⟩] →
      rt.Match host uri = (some ra, resolveTarget ra.Target m1) := by
    intro rt h1 h2 h3 h4 hperm
    have hsorteq :
        sortBySourceLength (walkCandidates rt.regex uri ++ rt.regexRoot) =
          [⟨ra, some rea⟩, ⟨rb, some reb⟩] := by
      apply sorted_eq_of_perm_distinct
      · exact (sortLen_perm _).trans hperm
      · exact sortLen_sorted _
      · simp [List.sorted_cons]
        omega
      · apply (((sortLen_perm _).trans hperm).map _).nodup_iff.mpr
        simp
        omega
    have hmr : matchRegex rt.regex rt.regexRoot uri =
        (some ra, resolveTarget ra.Target m1) := by
      unfold matchRegex
      rw [hsorteq]
      have hcf : crFind ⟨ra, some rea⟩ uri = some m1 := hfa
      simp [firstSubmatch, hcf]
    simp [RedirectTree.Match, h1, h2, h3, h4, radixGet, matchRegex_nil, hmr]
  obtain ⟨s1, s2, s3, s4, hp1⟩ := twoRegexState c e ra rb rea reb hta htb
    hca hcb
  obtain ⟨t1, t2, t3, t4, hp2⟩ := twoRegexState c e rb ra reb rea htb hta
    hcb hca
  exact ⟨final _ s1 s2 s3 s4 (hp1 uri hpa hpb),
    final _ t1 t2 t3 t4 ((hp2 uri hpb hpa).trans (List.Perm.swap _ _ _))⟩

/-- Claim C4: within a regex tier, candidates are evaluated in descending
order of raw `Source` length with short-circuit on the first match: a
returned match's redirect is a candidate whose regex matched and every
strictly longer candidate missed; if any candidate matches, a result is
returned; and for two REGEX rules of different `Source` lengths that both
match, the strictly longer one is returned, in either insertion order. -/
theorem claim_C4 (tree : List (Str × regexBucket))
    (rootBucket : List compiledRedirect) (input : Str) :
    (∀ r t, matchRegex tree rootBucket input = (some r, t) →
      ∃ cr m, cr ∈ walkCandidates tree input ++ rootBucket ∧
        cr.Redirect = r ∧ crFind cr input = some m ∧
        t = resolveTarget r.Target m ∧
        ∀ cr' ∈ walkCandidates tree input ++ rootBucket,
          cr.Redirect.Source.length < cr'.Redirect.Source.length →
            crFind cr' input = none) ∧
    ((∃ cr ∈ walkCandidates tree input ++ rootBucket,
        crFind cr input ≠ none) →
      (matchRegex tree rootBucket input).1 ≠ none) ∧
    (∀ (c : Str → Except Str Regexp) (e : Str → Str) (r1 r2 : Redirect)
        (re1 re2 : Regexp) (m1 : List Str) (host uri : Str),
      r1.type = RedirectTypeRegex → r2.type = RedirectTypeRegex →
      c r1.Source = .ok re1 → c r2.Source = .ok re2 →
      (e r1.Source = [] ∨ (e r1.Source).isPrefixOf uri = true) →
      (e r2.Source = [] ∨ (e r2.Source).isPrefixOf uri = true) →
      re1.FindStringSubmatch uri = some m1 →
      re2.FindStringSubmatch uri ≠ none →
      r2.Source.length < r1.Source.length →
      (buildTree c e [r1, r2]).Match host uri =
        (some r1, resolveTarget r1.Target m1) ∧
      (buildTree c e [r2, r1]).Match host uri =
        (some r1, resolveTarget r1.Target m1)) := by
  refine ⟨?_, ?_, ?_⟩
  · intro r t h
    unfold matchRegex at h
    obtain ⟨cr, m, hmem, hred, hfind, ht, hall⟩ :=
      firstSubmatch_some input _ (sortLen_sorted _) r t h
    refine ⟨cr, m, (sortLen_perm _).mem_iff.mp hmem, hred, hfind, ht, ?_⟩
    intro cr' hm' hlt
    exact hall cr' ((sortLen_perm _).mem_iff.mpr hm') hlt
  · rintro ⟨cr, hmem, hne⟩ h
    unfold matchRegex at h
    exact hne ((firstSubmatch_none_iff input _).mp h cr
      ((sortLen_perm _).mem_iff.mpr hmem))
  · intro c e r1 r2 re1 re2 m1 host uri ht1 ht2 hc1 hc2 hp1 hp2 hm1 _ hlt
    exact twoRegexMatchResult c e r1 r2 re1 re2 m1 host uri ht1 ht2 hc1 hc2
      hp1 hp2 hlt hm1

theorem claim_C4_witness :
    ((buildTree toyCompile toyExtract [wRegexA, wRegexB]).Match "h".toList
      "/abc".toList = (some wRegexA, "/t1".toList)) ∧
    ((buildTree toyCompile toyExtract [wRegexB, wRegexA]).Match "h".toList
      "/abc".toList = (some wRegexA, "/t1".toList)) :=
  (claim_C4 [] [] []).2.2 toyCompile toyExtract wRegexA wRegexB
    (toyRe wRegexA.Source) (toyRe wRegexB.Source) ["/abc".toList]
    "h".toList "/abc".toList rfl rfl rfl rfl (Or.inl rfl) (Or.inl rfl) rfl
    (by decide) (by decide)

theorem tierCompiled_cons_skip (c : Str → Except Str Regexp) (e : Str → Str)
    (ty : RedirectType) (r : Redirect) (rest : List Redirect)
    (h : r.type ≠ ty) :
    tierCompiled c e ty (r :: rest) = tierCompiled c e ty rest := by
  unfold tierCompiled
  rw [List.filterMap_cons]
  simp [h]

theorem tierCompiled_cons_err (c : Str → Except Str Regexp) (e : Str → Str)
    (ty : RedirectType) (r : Redirect) (rest : List Redirect) (err : Str)
    (h : r.type = ty) (hc : c r.Source = .error err) :
    tierCompiled c e ty (r :: rest) = tierCompiled c e ty rest := by
  unfold tierCompiled
  rw [List.filterMap_cons]
  simp [h, hc]

theorem tierCompiled_cons_ok (c : Str → Except Str Regexp) (e : Str → Str)
    (ty : RedirectType) (r : Redirect) (rest : List Redirect) (re : Regexp)
    (h : r.type = ty) (hc : c r.Source = .ok re) :
    tierCompiled c e ty (r :: rest) =
      (e r.Source, ⟨r, some re⟩) :: tierCompiled c e ty rest := by
  unfold tierCompiled
  rw [List.filterMap_cons]
  simp [h, hc]

theorem rootOf_cons_empty (cr : compiledRedirect)
    (l : List (Str × compiledRedirect)) :
    rootOf ((([] : Str), cr) :: l) = cr :: rootOf l := by
  unfold rootOf
  rw [List.filter_cons_of_pos (by rfl), List.map_cons]

theorem rootOf_cons_ne (p : Str) (cr : compiledRedirect)
    (l : List (Str × compiledRedirect)) (hp : p ≠ []) :
    rootOf ((p, cr) :: l) = rootOf l := by
  unfold rootOf
  rw [List.filter_cons_of_neg ?_]
  cases p with
  | nil => exact absurd rfl hp
  | cons a as => simp

theorem buildFields (c : Str → Except Str Regexp) (e : Str → Str) :
    ∀ (rs : List Redirect) (rt0 : RedirectTree),
      ((rs.foldl (fun rt r => (RedirectTree.Insert c e rt r).1)
          rt0).basicHost =
        basicFoldFrom rt0.basicHost
          (rs.filter (fun r => decide (r.type = RedirectTypeBasicHost)))) ∧
      ((rs.foldl (fun rt r => (RedirectTree.Insert c e rt r).1) rt0).basic =
        basicFoldFrom rt0.basic
          (rs.filter (fun r => decide (r.type = RedirectTypeBasic)))) ∧
      ((rs.foldl (fun rt r => (RedirectTree.Insert c e rt r).1)
          rt0).regexHostRoot =
        rt0.regexHostRoot ++
          rootOf (tierCompiled c e RedirectTypeRegexHost rs)) ∧
      ((rs.foldl (fun rt r => (RedirectTree.Insert c e rt r).1)
          rt0).regexRoot =
        rt0.regexRoot ++ rootOf (tierCompiled c e RedirectTypeRegex rs)) ∧
      ((rs.foldl (fun rt r => (RedirectTree.Insert c e rt r).1)
          rt0).regexHost =
        bucketsFoldFrom rt0.regexHost
          ((tierCompiled c e RedirectTypeRegexHost rs).filter
            (fun pc => !pc.1.isEmpty))) ∧
      ((rs.foldl (fun rt r => (RedirectTree.Insert c e rt r).1) rt0).regex =
        bucketsFoldFrom rt0.regex
          ((tierCompiled c e RedirectTypeRegex rs).filter
            (fun pc => !pc.1.isEmpty))) := by
  intro rs
  induction rs with
  | nil =>
    intro rt0
    simp [basicFoldFrom, tierCompiled, rootOf, bucketsFoldFrom]
  | cons r rest ih =>
    intro rt0
    simp only [List.foldl_cons]
    by_cases h1 : r.type = RedirectTypeBasicHost
    · have hne2 : r.type ≠ RedirectTypeBasic := by rw [h1]; decide
      have hne3 : r.type ≠ RedirectTypeRegexHost := by rw [h1]; decide
      have hne4 : r.type ≠ RedirectTypeRegex := by rw [h1]; decide
      rw [Insert_basicHost_eq c e rt0 r h1]
      obtain ⟨i1, i2, i3, i4, i5, i6⟩ := ih
        { rt0 with basicHost := radixInsert rt0.basicHost r.Source ⟨r, none⟩ }
      refine ⟨?_, ?_, ?_, ?_, ?_, ?_⟩
      · rw [i1, List.filter_cons_of_pos (by simp [h1])] <;> try rfl
      · rw [i2, List.filter_cons_of_neg (by simp [hne2])] <;> try rfl
      · rw [i3, tierCompiled_cons_skip c e _ r rest hne3] <;> try rfl
      · rw [i4, tierCompiled_cons_skip c e _ r rest hne4] <;> try rfl
      · rw [i5, tierCompiled_cons_skip c e _ r rest hne3] <;> try rfl
      · rw [i6, tierCompiled_cons_skip c e _ r rest hne4] <;> try rfl
    · by_cases h2 : r.type = RedirectTypeBasic
      · have hne3 : r.type ≠ RedirectTypeRegexHost := by rw [h2]; decide
        have hne4 : r.type ≠ RedirectTypeRegex := by rw [h2]; decide
        rw [Insert_basic_eq c e rt0 r h2]
        obtain ⟨i1, i2, i3, i4, i5, i6⟩ := ih
          { rt0 with basic := radixInsert rt0.basic r.Source ⟨r, none⟩ }
        refine ⟨?_, ?_, ?_, ?_, ?_, ?_⟩
        · rw [i1, List.filter_cons_of_neg (by simp [h1])] <;> try rfl
        · rw [i2, List.filter_cons_of_pos (by simp [h2])] <;> try rfl
        · rw [i3, tierCompiled_cons_skip c e _ r rest hne3] <;> try rfl
        · rw [i4, tierCompiled_cons_skip c e _ r rest hne4] <;> try rfl
        · rw [i5, tierCompiled_cons_skip c e _ r rest hne3] <;> try rfl
        · rw [i6, tierCompiled_cons_skip c e _ r rest hne4] <;> try rfl
      · by_cases h3 : r.type = RedirectTypeRegexHost
        · have hne4 : r.type ≠ RedirectTypeRegex := by rw [h3]; decide
          rw [Insert_regexHost_eq c e rt0 r h3]
          cases hc : c r.Source with
          | error err =>
            simp only [hc]
            obtain ⟨i1, i2, i3, i4, i5, i6⟩ := ih rt0
            refine ⟨?_, ?_, ?_, ?_, ?_, ?_⟩
            · rw [i1, List.filter_cons_of_neg (by simp [h1])] <;> try rfl
            · rw [i2, List.filter_cons_of_neg (by simp [h2])] <;> try rfl
            · rw [i3, tierCompiled_cons_err c e _ r rest err h3 hc] <;> try rfl
            · rw [i4, tierCompiled_cons_skip c e _ r rest hne4] <;> try rfl
            · rw [i5, tierCompiled_cons_err c e _ r rest err h3 hc] <;> try rfl
            · rw [i6, tierCompiled_cons_skip c e _ r rest hne4] <;> try rfl
          | ok re =>
            by_cases hp : e r.Source = []
            · simp only [hc, if_pos hp]
              obtain ⟨i1, i2, i3, i4, i5, i6⟩ := ih
                { rt0 with
                    regexHostRoot := rt0.regexHostRoot ++ [⟨r, some re⟩] }
              refine ⟨?_, ?_, ?_, ?_, ?_, ?_⟩
              · rw [i1, List.filter_cons_of_neg (by simp [h1])] <;> try rfl
              · rw [i2, List.filter_cons_of_neg (by simp [h2])] <;> try rfl
              · rw [i3, tierCompiled_cons_ok c e _ r rest re h3 hc, hp,
                  rootOf_cons_empty, List.append_assoc]
                rfl
              · rw [i4, tierCompiled_cons_skip c e _ r rest hne4] <;> try rfl
              · rw [i5, tierCompiled_cons_ok c e _ r rest re h3 hc,
                  List.filter_cons_of_neg (by simp [hp])] <;> try rfl
              · rw [i6, tierCompiled_cons_skip c e _ r rest hne4] <;> try rfl
            · simp only [hc, if_neg hp]
              obtain ⟨i1, i2, i3, i4, i5, i6⟩ := ih
                { rt0 with
                    regexHost :=
                      bucketInsert rt0.regexHost (e r.Source) ⟨r, some re⟩ }
              refine ⟨?_, ?_, ?_, ?_, ?_, ?_⟩
              · rw [i1, List.filter_cons_of_neg (by simp [h1])] <;> try rfl
              · rw [i2, List.filter_cons_of_neg (by simp [h2])] <;> try rfl
              · rw [i3, tierCompiled_cons_ok c e _ r rest re h3 hc,
                  rootOf_cons_ne _ _ _ hp] <;> try rfl
              · rw [i4, tierCompiled_cons_skip c e _ r rest hne4] <;> try rfl
              · rw [i5, tierCompiled_cons_ok c e _ r rest re h3 hc,
                  List.filter_cons_of_pos ?_]
                · rfl
                · cases hq : e r.Source with
                  | nil => exact absurd hq hp
                  | cons a as => simp
              · rw [i6, tierCompiled_cons_skip c e _ r rest hne4] <;> try rfl
        · by_cases h4 : r.type = RedirectTypeRegex
          · rw [Insert_regex_eq c e rt0 r h4]
            cases hc : c r.Source with
            | error err =>
              simp only [hc]
              obtain ⟨i1, i2, i3, i4, i5, i6⟩ := ih rt0
              refine ⟨?_, ?_, ?_, ?_, ?_, ?_⟩
              · rw [i1, List.filter_cons_of_neg (by simp [h1])] <;> try rfl
              · rw [i2, List.filter_cons_of_neg (by simp [h2])] <;> try rfl
              · rw [i3, tierCompiled_cons_skip c e _ r rest h3] <;> try rfl
              · rw [i4, tierCompiled_cons_err c e _ r rest err h4 hc] <;> try rfl
              · rw [i5, tierCompiled_cons_skip c e _ r rest h3] <;> try rfl
              · rw [i6, tierCompiled_cons_err c e _ r rest err h4 hc] <;> try rfl
            | ok re =>
              by_cases hp : e r.Source = []
              · simp only [hc, if_pos hp]
                obtain ⟨i1, i2, i3, i4, i5, i6⟩ := ih
                  { rt0 with regexRoot := rt0.regexRoot ++ [⟨r, some re⟩] }
                refine ⟨?_, ?_, ?_, ?_, ?_, ?_⟩
                · rw [i1, List.filter_cons_of_neg (by simp [h1])] <;> try rfl
                · rw [i2, List.filter_cons_of_neg (by simp [h2])] <;> try rfl
                · rw [i3, tierCompiled_cons_skip c e _ r rest h3] <;> try rfl
                · rw [i4, tierCompiled_cons_ok c e _ r rest re h4 hc, hp,
                    rootOf_cons_empty, List.append_assoc]
                  rfl
                · rw [i5, tierCompiled_cons_skip c e _ r rest h3] <;> try rfl
                · rw [i6, tierCompiled_cons_ok c e _ r rest re h4 hc,
                    List.filter_cons_of_neg (by simp [hp])] <;> try rfl
              · simp only [hc, if_neg hp]
                obtain ⟨i1, i2, i3, i4, i5, i6⟩ := ih
                  { rt0 with
                      regex :=
                        bucketInsert rt0.regex (e r.Source) ⟨r, some re⟩ }
                refine ⟨?_, ?_, ?_, ?_, ?_, ?_⟩
                · rw [i1, List.filter_cons_of_neg (by simp [h1])] <;> try rfl
                · rw [i2, List.filter_cons_of_neg (by simp [h2])] <;> try rfl
                · rw [i3, tierCompiled_cons_skip c e _ r rest h3] <;> try rfl
                · rw [i4, tierCompiled_cons_ok c e _ r rest re h4 hc,
                    rootOf_cons_ne _ _ _ hp] <;> try rfl
                · rw [i5, tierCompiled_cons_skip c e _ r rest h3] <;> try rfl
                · rw [i6, tierCompiled_cons_ok c e _ r rest re h4 hc,
                    List.filter_cons_of_pos ?_]
                  · rfl
                  · cases hq : e r.Source with
                    | nil => exact absurd hq hp
                    | cons a as => simp
          · rw [Insert_other_eq c e rt0 r h1 h2 h3 h4]
            obtain ⟨i1, i2, i3, i4, i5, i6⟩ := ih rt0
            refine ⟨?_, ?_, ?_, ?_, ?_, ?_⟩
            · rw [i1, List.filter_cons_of_neg (by simp [h1])] <;> try rfl
            · rw [i2, List.filter_cons_of_neg (by simp [h2])] <;> try rfl
            · rw [i3, tierCompiled_cons_skip c e _ r rest h3] <;> try rfl
            · rw [i4, tierCompiled_cons_skip c e _ r rest h4] <;> try rfl
            · rw [i5, tierCompiled_cons_skip c e _ r rest h3] <;> try rfl
            · rw [i6, tierCompiled_cons_skip c e _ r rest h4] <;> try rfl

theorem basicFoldFrom_get (k : Str) :
    ∀ (l : List Redirect) (t0 : List (Str × compiledRedirect)),
      radixGet (basicFoldFrom t0 l) k =
        match l.reverse.find? (fun r => decide (r.Source = k)) with
        | some r => some ⟨r, none⟩
        | none => radixGet t0 k := by
  intro l
  induction l with
  | nil => intro t0; rfl
  | cons r rest ih =>
    intro t0
    have hstep : basicFoldFrom t0 (r :: rest) =
        basicFoldFrom (radixInsert t0 r.Source ⟨r, none⟩) rest := rfl
    rw [hstep, ih]
    have hrev : (r :: rest).reverse = rest.reverse ++ [r] := by simp
    rw [hrev, List.find?_append]
    cases hf : rest.reverse.find? (fun r => decide (r.Source = k)) with
    | some r' => rfl
    | none =>
      simp only [Option.or]
      cases hfr : List.find? (fun r => decide (r.Source = k)) [r] with
      | some r' =>
        have hp := List.find?_some hfr
        have hm := List.mem_of_find?_eq_some hfr
        simp at hm
        subst hm
        simp at hp
        rw [radixGet_radixInsert, if_pos hp]
      | none =>
        have hnp : ¬ (decide (r.Source = k) = true) :=
          List.find?_eq_none.mp hfr r (by simp)
        simp at hnp
        rw [radixGet_radixInsert, if_neg hnp]

theorem find?_perm_unique {α : Type} (p : α → Bool) (l l' : List α)
    (hp : List.Perm l l')
    (huniq : ∀ x ∈ l, ∀ y ∈ l, p x = true → p y = true → x = y) :
    l.find? p = l'.find? p := by
  cases h : l.find? p with
  | none =>
    rw [List.find?_eq_none] at h
    cases h' : l'.find? p with
    | none => rfl
    | some y =>
      exact absurd (List.find?_some h')
        (h y (hp.mem_iff.mpr (List.mem_of_find?_eq_some h')))
  | some x =>
    have hx := List.find?_some h
    have hxm := List.mem_of_find?_eq_some h
    cases h' : l'.find? p with
    | none =>
      rw [List.find?_eq_none] at h'
      exact absurd hx (h' x (hp.mem_iff.mp hxm))
    | some y =>
      have hy := List.find?_some h'
      have hym := hp.mem_iff.mpr (List.mem_of_find?_eq_some h')
      rw [huniq x hxm y hym hx hy]

theorem filter_two_perm {α : Type} (f1 f2 : α → Bool)
    (hdisj : ∀ x, f1 x = true → f2 x = false) :
    ∀ l : List α,
      List.Perm (l.filter f1 ++ l.filter f2)
        (l.filter (fun x => f1 x || f2 x)) := by
  intro l
  induction l with
  | nil => simp
  | cons x l' ih =>
    cases hf1 : f1 x with
    | true =>
      rw [List.filter_cons_of_pos hf1, List.filter_cons_of_neg
        (by simp [hdisj x hf1]), List.filter_cons_of_pos (by simp [hf1])]
      exact (List.Perm.cons x ih)
    | false =>
      cases hf2 : f2 x with
      | true =>
        rw [List.filter_cons_of_neg (by simp [hf1]),
          List.filter_cons_of_pos hf2,
          List.filter_cons_of_pos (by simp [hf1, hf2])]
        exact List.perm_middle.trans (List.Perm.cons x ih)
      | false =>
        rw [List.filter_cons_of_neg (by simp [hf1]),
          List.filter_cons_of_neg (by simp [hf2]),
          List.filter_cons_of_neg (by simp [hf1, hf2])]
        exact ih

theorem tierCompiled_lengths_sublist (c : Str → Except Str Regexp)
    (e : Str → Str) (ty : RedirectType) :
    ∀ rs : List Redirect,
      List.Sublist
        ((tierCompiled c e ty rs).map
          (fun pc => pc.2.Redirect.Source.length))
        ((rs.filter (fun r => decide (r.type = ty))).map
          (fun r => r.Source.length)) := by
  intro rs
  induction rs with
  | nil => simp [tierCompiled]
  | cons r rest ih =>
    by_cases ht : r.type = ty
    · rw [List.filter_cons_of_pos (by simp [ht]), List.map_cons]
      cases hc : c r.Source with
      | error err =>
        rw [tierCompiled_cons_err c e ty r rest err ht hc]
        exact ih.cons _
      | ok re =>
        rw [tierCompiled_cons_ok c e ty r rest re ht hc, List.map_cons]
        exact ih.cons₂ _
    · rw [List.filter_cons_of_neg (by simp [ht]),
        tierCompiled_cons_skip c e ty r rest ht]
      exact ih

theorem bucketInsert_cons_ne (k : Str) (b : regexBucket)
    (t : List (Str × regexBucket)) (p : Str) (cr : compiledRedirect)
    (hk : k ≠ p) :
    bucketInsert ((k, b) :: t) p cr = (k, b) :: bucketInsert t p cr := by
  unfold bucketInsert
  have hg : radixGet ((k, b) :: t) p = radixGet t p := by
    simp [radixGet, hk]
  rw [hg]
  cases radixGet t p with
  | some b' => simp [radixInsert, hk]
  | none => simp [radixInsert, hk]

theorem walkCandidates_bucketInsert (input p : Str) (cr : compiledRedirect) :
    ∀ t : List (Str × regexBucket),
      List.Perm (walkCandidates (bucketInsert t p cr) input)
        (walkCandidates t input ++
          (if ((input.take (minInt input.length 1)).isPrefixOf p &&
              p.isPrefixOf input) = true then [cr] else [])) := by
  intro t
  induction t with
  | nil =>
    have h : bucketInsert [] p cr = [(p, ⟨[cr]⟩)] := rfl
    rw [h, walkCandidates_cons, walkCandidates_nil_tree]
    by_cases hc : ((input.take (minInt input.length 1)).isPrefixOf p &&
        p.isPrefixOf input) = true
    · simp only [if_pos hc]
      simp
    · simp only [if_neg hc]
      simp
  | cons kb t' ih =>
    obtain ⟨k, b⟩ := kb
    by_cases hk : k = p
    · subst hk
      have h : bucketInsert ((k, b) :: t') k cr =
          (k, ⟨b.redirects ++ [cr]⟩) :: t' := by
        unfold bucketInsert
        simp [radixGet, radixInsert]
      rw [h, walkCandidates_cons, walkCandidates_cons]
      by_cases hc : ((input.take (minInt input.length 1)).isPrefixOf k &&
          k.isPrefixOf input) = true
      · simp only [if_pos hc]
        rw [List.append_assoc, List.append_assoc]
        exact List.Perm.append_left _ List.perm_append_comm
      · simp only [if_neg hc]
        simp
    · rw [bucketInsert_cons_ne k b t' p cr hk, walkCandidates_cons,
        walkCandidates_cons]
      by_cases hc : ((input.take (minInt input.length 1)).isPrefixOf k &&
          k.isPrefixOf input) = true
      · simp only [if_pos hc]
        rw [List.append_assoc]
        exact List.Perm.append_left _ ih
      · simp only [if_neg hc]
        simpa using ih

theorem walkCandidates_bucketsFoldFrom (input : Str) :
    ∀ (lp : List (Str × compiledRedirect)) (t0 : List (Str × regexBucket)),
      List.Perm (walkCandidates (bucketsFoldFrom t0 lp) input)
        (walkCandidates t0 input ++
          (lp.filter (fun pc =>
            (input.take (minInt input.length 1)).isPrefixOf pc.1 &&
              pc.1.isPrefixOf input)).map (fun pc => pc.2)) := by
  intro lp
  induction lp with
  | nil =>
    intro t0
    simp [bucketsFoldFrom]
  | cons pc lp' ih =>
    intro t0
    have hstep : bucketsFoldFrom t0 (pc :: lp') =
        bucketsFoldFrom (bucketInsert t0 pc.1 pc.2) lp' := rfl
    rw [hstep]
    refine (ih _).trans ?_
    simp only [List.filter_cons]
    by_cases hc : ((input.take (minInt input.length 1)).isPrefixOf pc.1 &&
        pc.1.isPrefixOf input) = true
    · rw [if_pos hc, List.map_cons]
      have hbi := (walkCandidates_bucketInsert input pc.1 pc.2 t0).trans
        (by rw [if_pos hc])
      refine (List.Perm.append_right _ hbi).trans ?_
      rw [List.append_assoc]
      exact List.Perm.append_left _ List.perm_middle.symm
    · rw [if_neg hc]
      refine List.Perm.append_right _ ?_
      have hbi := (walkCandidates_bucketInsert input pc.1 pc.2 t0).trans
        (by rw [if_neg hc])
      exact hbi.trans (by simp)

theorem Match_congr (rt rt' : RedirectTree) (host uri : Str)
    (h1 : radixGet rt.basicHost (host ++ uri) =
      radixGet rt'.basicHost (host ++ uri))
    (h2 : radixGet rt.basic uri = radixGet rt'.basic uri)
    (h3 : matchRegex rt.regexHost rt.regexHostRoot (host ++ uri) =
      matchRegex rt'.regexHost rt'.regexHostRoot (host ++ uri))
    (h4 : matchRegex rt.regex rt.regexRoot uri =
      matchRegex rt'.regex rt'.regexRoot uri) :
    rt.Match host uri = rt'.Match host uri := by
  simp only [RedirectTree.Match]
  rw [h1, h2, h3, h4]

theorem tier_matchRegex_eq (input : Str)
    (tc tc' : List (Str × compiledRedirect)) (hp : List.Perm tc tc')
    (hn : (tc.map (fun pc => pc.2.Redirect.Source.length)).Nodup) :
    matchRegex (bucketsFoldFrom [] (tc.filter (fun pc => !pc.1.isEmpty)))
        (rootOf tc) input =
      matchRegex (bucketsFoldFrom [] (tc'.filter (fun pc => !pc.1.isEmpty)))
        (rootOf tc') input := by
  have hcanon : ∀ l : List (Str × compiledRedirect),
      List.Perm
        (walkCandidates
          (bucketsFoldFrom [] (l.filter (fun pc => !pc.1.isEmpty))) input ++
            rootOf l)
        ((l.filter (fun pc =>
            ((input.take (minInt input.length 1)).isPrefixOf pc.1 &&
              pc.1.isPrefixOf input) && !pc.1.isEmpty) ++
          l.filter (fun pc => pc.1.isEmpty)).map (fun pc => pc.2)) := by
    intro l
    have hw : List.Perm
        (walkCandidates
          (bucketsFoldFrom [] (l.filter (fun pc => !pc.1.isEmpty))) input)
        ((l.filter (fun pc =>
            ((input.take (minInt input.length 1)).isPrefixOf pc.1 &&
              pc.1.isPrefixOf input) && !pc.1.isEmpty)).map
          (fun pc => pc.2)) := by
      refine (walkCandidates_bucketsFoldFrom input _ []).trans ?_
      rw [walkCandidates_nil_tree, List.nil_append, List.filter_filter]
    have hroot : rootOf l =
        (l.filter (fun pc => pc.1.isEmpty)).map (fun pc => pc.2) := rfl
    rw [hroot, List.map_append]
    exact List.Perm.append_right _ hw
  have hdisj : ∀ pc : Str × compiledRedirect,
      (((input.take (minInt input.length 1)).isPrefixOf pc.1 &&
        pc.1.isPrefixOf input) && !pc.1.isEmpty) = true →
      (pc.1.isEmpty : Bool) = false := by
    intro pc h
    rcases Bool.and_eq_true_iff.mp h with ⟨_, hne⟩
    simp at hne
    simp [hne]
  have hmid : ∀ l : List (Str × compiledRedirect),
      List.Perm
        (l.filter (fun pc =>
            ((input.take (minInt input.length 1)).isPrefixOf pc.1 &&
              pc.1.isPrefixOf input) && !pc.1.isEmpty) ++
          l.filter (fun pc => pc.1.isEmpty))
        (l.filter (fun pc =>
          (((input.take (minInt input.length 1)).isPrefixOf pc.1 &&
            pc.1.isPrefixOf input) && !pc.1.isEmpty) || pc.1.isEmpty)) :=
    fun l => filter_two_perm _ _ hdisj l
  have hcperm : List.Perm
      (walkCandidates
        (bucketsFoldFrom [] (tc.filter (fun pc => !pc.1.isEmpty))) input ++
          rootOf tc)
      (walkCandidates
        (bucketsFoldFrom [] (tc'.filter (fun pc => !pc.1.isEmpty))) input ++
          rootOf tc') := by
    refine (hcanon tc).trans (.trans ?_ (hcanon tc').symm)
    refine ((hmid tc).map _).trans (.trans ?_ ((hmid tc').map _).symm)
    exact (hp.filter _).map _
  have hnsub : ((tc.filter (fun pc =>
      (((input.take (minInt input.length 1)).isPrefixOf pc.1 &&
        pc.1.isPrefixOf input) && !pc.1.isEmpty) || pc.1.isEmpty)).map
        (fun pc => pc.2.Redirect.Source.length)).Nodup :=
    ((List.filter_sublist _).map _).nodup hn
  have hn1 : ((walkCandidates
      (bucketsFoldFrom [] (tc.filter (fun pc => !pc.1.isEmpty))) input ++
        rootOf tc).map (fun cr => cr.Redirect.Source.length)).Nodup := by
    have hmp : List.Perm
        ((walkCandidates
          (bucketsFoldFrom [] (tc.filter (fun pc => !pc.1.isEmpty))) input ++
            rootOf tc).map (fun cr => cr.Redirect.Source.length))
        ((tc.filter (fun pc =>
          (((input.take (minInt input.length 1)).isPrefixOf pc.1 &&
            pc.1.isPrefixOf input) && !pc.1.isEmpty) || pc.1.isEmpty)).map
            (fun pc => pc.2.Redirect.Source.length)) := by
      refine (((hcanon tc).trans ((hmid tc).map _)).map _).trans ?_
      rw [List.map_map]
      exact List.Perm.refl _
    exact hmp.nodup_iff.mpr hnsub
  have hsort : sortBySourceLength
      (walkCandidates
        (bucketsFoldFrom [] (tc.filter (fun pc => !pc.1.isEmpty))) input ++
          rootOf tc) =
    sortBySourceLength
      (walkCandidates
        (bucketsFoldFrom [] (tc'.filter (fun pc => !pc.1.isEmpty))) input ++
          rootOf tc') := by
    apply sorted_eq_of_perm_distinct
    · exact (sortLen_perm _).trans (hcperm.trans (sortLen_perm _).symm)
    · exact sortLen_sorted _
    · exact sortLen_sorted _
    · exact ((sortLen_perm _).map _).nodup_iff.mpr hn1
  unfold matchRegex
  rw [hsort]

/-- Claim C7 fails on the code as stated: with two BASIC rules sharing the
source `/a` (targets `/x` and `/y`), the later insert silently overwrites
the earlier one, so the two insertion orders of the same rule list give
matchers whose `Match` results differ on the input `/a`. -/
theorem claim_C7_cex :
    List.Perm [dupA, dupB] [dupB, dupA] ∧
    (buildTree toyCompile toyExtract [dupA, dupB]).Match [] "/a".toList =
      (some dupB, "/y".toList) ∧
    (buildTree toyCompile toyExtract [dupB, dupA]).Match [] "/a".toList =
      (some dupA, "/x".toList) ∧
    (buildTree toyCompile toyExtract [dupA, dupB]).Match [] "/a".toList ≠
      (buildTree toyCompile toyExtract [dupB, dupA]).Match [] "/a".toList :=
  ⟨List.Perm.swap _ _ _, by decide, by decide, by decide⟩

/-- Claim C7, amended: building matchers from the same rule list in two
insertion orders yields identical `Match` results on every input, provided
the BASIC rules have pairwise-distinct sources, the BASIC_HOST rules have
pairwise-distinct sources, and within each regex tier the rules have
pairwise-distinct source lengths.  (With duplicate exact sources the last
insert wins, and ties among equal-length regex sources are resolved by an
unspecified sort order, so insertion order can then change the result.) -/
theorem claim_C7 (c : Str → Except Str Regexp) (e : Str → Str)
    (rs rs' : List Redirect) (hperm : List.Perm rs rs')
    (hbh : ((rs.filter (fun r =>
      decide (r.type = RedirectTypeBasicHost))).map
        (fun r => r.Source)).Nodup)
    (hb : ((rs.filter (fun r => decide (r.type = RedirectTypeBasic))).map
      (fun r => r.Source)).Nodup)
    (hrh : ((rs.filter (fun r =>
      decide (r.type = RedirectTypeRegexHost))).map
        (fun r => r.Source.length)).Nodup)
    (hr : ((rs.filter (fun r => decide (r.type = RedirectTypeRegex))).map
      (fun r => r.Source.length)).Nodup) :
    ∀ host uri, (buildTree c e rs).Match host uri =
      (buildTree c e rs').Match host uri := by
  intro host uri
  obtain ⟨f1, f2, f3, f4, f5, f6⟩ := buildFields c e rs NewRedirectTreeMatcher
  obtain ⟨g1, g2, g3, g4, g5, g6⟩ :=
    buildFields c e rs' NewRedirectTreeMatcher
  have exactEq : ∀ (k : Str) (p : Redirect → Bool),
      ((rs.filter p).map (fun r => r.Source)).Nodup →
      radixGet (basicFoldFrom NewRedirectTreeMatcher.basicHost (rs.filter p))
          k =
        radixGet (basicFoldFrom NewRedirectTreeMatcher.basicHost
          (rs'.filter p)) k := by
    intro k p hnd
    rw [basicFoldFrom_get, basicFoldFrom_get]
    have hfind : (rs.filter p).reverse.find?
        (fun r => decide (r.Source = k)) =
          (rs'.filter p).reverse.find? (fun r => decide (r.Source = k)) := by
      apply find?_perm_unique
      · exact (List.reverse_perm _).trans
          ((hperm.filter _).trans (List.reverse_perm _).symm)
      · intro x hx y hy hpx hpy
        have hx' : x ∈ rs.filter p := (List.reverse_perm _).mem_iff.mp hx
        have hy' : y ∈ rs.filter p := (List.reverse_perm _).mem_iff.mp hy
        exact List.inj_on_of_nodup_map hnd hx' hy'
          ((of_decide_eq_true hpx).trans (of_decide_eq_true hpy).symm)
    rw [hfind]
  have exactEqB : ∀ (k : Str) (p : Redirect → Bool),
      ((rs.filter p).map (fun r => r.Source)).Nodup →
      radixGet (basicFoldFrom NewRedirectTreeMatcher.basic (rs.filter p))
          k =
        radixGet (basicFoldFrom NewRedirectTreeMatcher.basic
          (rs'.filter p)) k := by
    intro k p hnd
    rw [basicFoldFrom_get, basicFoldFrom_get]
    have hfind : (rs.filter p).reverse.find?
        (fun r => decide (r.Source = k)) =
          (rs'.filter p).reverse.find? (fun r => decide (r.Source = k)) := by
      apply find?_perm_unique
      · exact (List.reverse_perm _).trans
          ((hperm.filter _).trans (List.reverse_perm _).symm)
      · intro x hx y hy hpx hpy
        have hx' : x ∈ rs.filter p := (List.reverse_perm _).mem_iff.mp hx
        have hy' : y ∈ rs.filter p := (List.reverse_perm _).mem_iff.mp hy
        exact List.inj_on_of_nodup_map hnd hx' hy'
          ((of_decide_eq_true hpx).trans (of_decide_eq_true hpy).symm)
    rw [hfind]
  have tierPerm : ∀ ty : RedirectType,
      List.Perm (tierCompiled c e ty rs) (tierCompiled c e ty rs') := by
    intro ty
    unfold tierCompiled
    exact hperm.filterMap _
  have tierNodupRH : ((tierCompiled c e RedirectTypeRegexHost rs).map
      (fun pc => pc.2.Redirect.Source.length)).Nodup :=
    (tierCompiled_lengths_sublist c e RedirectTypeRegexHost rs).nodup hrh
  have tierNodupR : ((tierCompiled c e RedirectTypeRegex rs).map
      (fun pc => pc.2.Redirect.Source.length)).Nodup :=
    (tierCompiled_lengths_sublist c e RedirectTypeRegex rs).nodup hr
  unfold buildTree
  apply Match_congr
  · rw [f1, g1]
    exact exactEq (host ++ uri) _ hbh
  · rw [f2, g2]
    exact exactEqB uri _ hb
  · rw [f5, g5,
      f3.trans (List.nil_append _), g3.trans (List.nil_append _)]
    exact tier_matchRegex_eq (host ++ uri) _ _
      (tierPerm RedirectTypeRegexHost) tierNodupRH
  · rw [f6, g6,
      f4.trans (List.nil_append _), g4.trans (List.nil_append _)]
    exact tier_matchRegex_eq uri _ _ (tierPerm RedirectTypeRegex) tierNodupR

theorem claim_C7_witness :
    (buildTree toyCompile toyExtract [wRegexA, wRegexB]).Match "h".toList
        "/ab".toList =
      (buildTree toyCompile toyExtract [wRegexB, wRegexA]).Match "h".toList
        "/ab".toList :=
  claim_C7 toyCompile toyExtract [wRegexA, wRegexB] [wRegexB, wRegexA]
    (List.Perm.swap _ _ _) (by decide) (by decide) (by decide) (by decide)
    "h".toList "/ab".toList
